import Mathlib

/-!
# PlasmaCacheManager (oap-ape/ape-native/src/utils/PlasmaCacheManager.cc)

A shallow embedding of the per-session range cache: the derivation of cache keys
and object identifiers, the manager operations over a plasma client, and the flush
of statistics to redis at `close()`.

Conventions of the embedding.

* A `std::string` / C string is a `List Char`; one `Char` stands for one C `char`,
  and lengths count `char`s.
* `::arrow::io::ReadRange` is a pair of `int64_t` fields; they are `Int` here and
  `isInt64` states the machine range.
* `snprintf(buff, size, ...)` writes at most `size - 1` characters.
* The conversion `%d` consumes one variadic slot and prints its low 32 bits as a signed
  `int` (LP64 calling conventions, where every integer variadic argument takes an
  eight-byte slot); `%s` prints up to the first NUL character.
* `plasma::PlasmaClient` and `sw::redis::Redis` are external: the manager is written
  against records of functions over an arbitrary store state and registry state.
* Dereferencing a null `client_` is the fault `Fault.nullClient`.
-/

namespace ape

/-! ## Strings and formatted output -/

/-- A character string of the program (`std::string`, `char[]`). -/
abbrev CString := List Char

/-- The NUL character that terminates a C string. -/
def NUL : Char := Char.ofNat 0

/-- The view of a `std::string` through `c_str()` as read by `%s`: the characters before
the first NUL. -/
def c_str (s : CString) : CString :=
  s.takeWhile (fun c => c != NUL)

/-- The result of `snprintf(buff, size, fmt, ...)` read back as a string, where `out` is the
complete formatted output: at most `size - 1` characters are stored. -/
def snprintf (size : Nat) (out : CString) : CString :=
  out.take (size - 1)

/-- The character of a decimal digit. -/
def digit (d : Nat) : Char := Char.ofNat (48 + d)

/-- Decimal digits of a natural number, most significant first; `fuel` bounds the
number of digits. -/
def decimalFuel : Nat → Nat → CString
  | 0, n => [digit (n % 10)]
  | fuel + 1, n => if n < 10 then [digit n] else decimalFuel fuel (n / 10) ++ [digit (n % 10)]

/-- Decimal rendering of a natural number. -/
def decimalNat (n : Nat) : CString := decimalFuel n n

/-- Decimal rendering of an integer, with a leading minus sign when negative. -/
def decimal (x : Int) : CString :=
  if x < 0 then '-' :: decimalNat x.natAbs else decimalNat x.natAbs

/-- The value an `int` takes from the low 32 bits of a wider integer. -/
def toInt32 (x : Int) : Int := (x + 2147483648) % 4294967296 - 2147483648

/-- Output of the conversion `%d` for an argument that was passed as `int64_t`. -/
def fmt_d (x : Int) : CString := decimal (toInt32 x)

/-- Range of `int64_t`. -/
def isInt64 (x : Int) : Prop := -9223372036854775808 ≤ x ∧ x < 9223372036854775808

instance (x : Int) : Decidable (isInt64 x) := by unfold isInt64; infer_instance

/-- Range of `int`, on which `%d` prints the value that was passed. -/
def isInt32 (x : Int) : Prop := -2147483648 ≤ x ∧ x < 2147483648

instance (x : Int) : Decidable (isInt32 x) := by unfold isInt32; infer_instance

/-- The type `::arrow::io::ReadRange`. -/
structure ReadRange where
  offset : Int
  length : Int
deriving DecidableEq, Repr

/-! ## Keys and object identifiers -/

/-- The constant `SHA_DIGEST_LENGTH` of OpenSSL. -/
def SHA_DIGEST_LENGTH : Nat := 20

/-- The type `plasma::ObjectID`: `SHA_DIGEST_LENGTH` bytes. -/
abbrev ObjectID := { l : List Nat // l.length = SHA_DIGEST_LENGTH }

/-- Contents of a `Buffer`. -/
abbrev Bytes := List Nat

/-- The class `PlasmaCacheManager`: its data members. `client_` and `redis_` are shared
pointers, `true` when non-null. The class declaration is in a header that is not among the
sources: the two counters are taken as unbounded naturals that start at zero. -/
structure PlasmaCacheManager where
  file_path_ : CString
  client_ : Bool
  object_ids : List ObjectID
  redis_ : Bool
  hostname : CString
  cache_hit_count_ : Nat
  cache_miss_count_ : Nat
  cached_ranges_ : List ReadRange

/-- The literal that starts every cache key. -/
def keyHead : CString := "plasma_cache:parquet_chunk:".data

/-- The complete output of the format `"plasma_cache:parquet_chunk:%s:%d_%d"` in
`cacheKeyofFileRange`, before the bound of the buffer applies. -/
def keyOutput (m : PlasmaCacheManager) (range : ReadRange) : CString :=
  keyHead ++ c_str m.file_path_ ++ [':'] ++ fmt_d range.offset ++ ['_'] ++ fmt_d range.length

/-- The method `PlasmaCacheManager::cacheKeyofFileRange`. -/
def cacheKeyofFileRange (m : PlasmaCacheManager) (range : ReadRange) : CString :=
  snprintf 1024 (keyOutput m range)

/-- The method `PlasmaCacheManager::objectIdOfFileRange`; `SHA1` is the digest function of
OpenSSL. -/
def objectIdOfFileRange (SHA1 : CString → ObjectID) (m : PlasmaCacheManager)
    (range : ReadRange) : ObjectID :=
  SHA1 (cacheKeyofFileRange m range)

/-- The string the specification gives for the key of `(p, offset, length)`. -/
def specKey (p : CString) (range : ReadRange) : CString :=
  keyHead ++ p ++ [':'] ++ decimal range.offset ++ ['_'] ++ decimal range.length

/-! ## The plasma client -/

/-- An `arrow::Status` as far as the manager tells statuses apart. -/
inductive Status where
  | OK
  | PlasmaObjectExists
  | PlasmaStoreFull
  | OtherError
deriving DecidableEq, Repr

/-- The test `status.ok()`. -/
def Status.ok : Status → Bool
  | .OK => true
  | _ => false

/-- The test `plasma::IsPlasmaObjectExists(status)`. -/
def IsPlasmaObjectExists : Status → Bool
  | .PlasmaObjectExists => true
  | _ => false

/-- The test `plasma::IsPlasmaStoreFull(status)`. -/
def IsPlasmaStoreFull : Status → Bool
  | .PlasmaStoreFull => true
  | _ => false

/-- The calls of `plasma::PlasmaClient` the manager makes, as transitions of a store state
`σ`. `memcpy oid data` is the write of `data` into the buffer `Create` returned for `oid`.
`Get` gives the status and the data pointer of the object buffer (`none` for null);
`Contains` gives the status and the flag `has_object`. -/
structure PlasmaClient (σ : Type) where
  Connect : σ → Status × σ
  Create : ObjectID → Nat → σ → Status × σ
  memcpy : ObjectID → Bytes → σ → σ
  Seal : ObjectID → σ → Status × σ
  Abort : ObjectID → σ → Status × σ
  Release : ObjectID → σ → Status × σ
  Get : ObjectID → Nat → σ → (Status × Option Bytes) × σ
  Contains : ObjectID → σ → (Status × Bool) × σ
  Delete : ObjectID → σ → Status × σ
  Disconnect : σ → Status × σ

/-- What goes wrong in a method: the call `client_->...` through a null `client_`. -/
inductive Fault where
  | nullClient
deriving DecidableEq, Repr

/-! ## The manager -/

/-- The constructor `PlasmaCacheManager::PlasmaCacheManager`; `host` is what `gethostname`
writes into its buffer, read back as a C string. The host name is recorded only when the
connect succeeds. -/
def PlasmaCacheManager.new {σ : Type} (cl : PlasmaClient σ) (host : CString)
    (file_path : CString) (s : σ) : PlasmaCacheManager × σ :=
  let r := cl.Connect s
  if r.1.ok then
    ({ file_path_ := file_path, client_ := true, object_ids := [], redis_ := false,
       hostname := c_str host, cache_hit_count_ := 0, cache_miss_count_ := 0,
       cached_ranges_ := [] }, r.2)
  else
    ({ file_path_ := file_path, client_ := false, object_ids := [], redis_ := false,
       hostname := [], cache_hit_count_ := 0, cache_miss_count_ := 0,
       cached_ranges_ := [] }, r.2)

/-- The method `PlasmaCacheManager::connected`. -/
def connected (m : PlasmaCacheManager) : Bool := m.client_

/-- The loop of `release()`: one `Release` per element of `object_ids`, statuses ignored. -/
def releaseAll {σ : Type} (cl : PlasmaClient σ) : List ObjectID → σ → σ
  | [], s => s
  | oid :: rest, s => releaseAll cl rest (cl.Release oid s).2

/-- The method `PlasmaCacheManager::release`. -/
def release {σ : Type} (cl : PlasmaClient σ) (m : PlasmaCacheManager) (s : σ) :
    PlasmaCacheManager × σ :=
  if !m.client_ then (m, s)
  else ({ m with object_ids := [] }, releaseAll cl m.object_ids s)

/-- The method `PlasmaCacheManager::containsFileRange`. -/
def containsFileRange {σ : Type} (SHA1 : CString → ObjectID) (cl : PlasmaClient σ)
    (m : PlasmaCacheManager) (s : σ) (range : ReadRange) :
    Except Fault (Bool × PlasmaCacheManager × σ) :=
  if !m.client_ then .error .nullClient
  else
    let r := cl.Contains (objectIdOfFileRange SHA1 m range) s
    if !r.1.1.ok then .ok (false, m, r.2)
    else if !r.1.2 then
      .ok (false, { m with cache_miss_count_ := m.cache_miss_count_ + 1 }, r.2)
    else .ok (true, m, r.2)

/-- The method `PlasmaCacheManager::getFileRange`; the result `none` is the null buffer. -/
def getFileRange {σ : Type} (SHA1 : CString → ObjectID) (cl : PlasmaClient σ)
    (m : PlasmaCacheManager) (s : σ) (range : ReadRange) :
    Except Fault (Option Bytes × PlasmaCacheManager × σ) :=
  if !m.client_ then .error .nullClient
  else
    let oid := objectIdOfFileRange SHA1 m range
    let r := cl.Get oid 1000 s
    if !r.1.1.ok || r.1.2.isNone then
      .ok (none, { m with cache_miss_count_ := m.cache_miss_count_ + 1 }, r.2)
    else
      .ok (r.1.2,
           { m with object_ids := m.object_ids ++ [oid],
                    cache_hit_count_ := m.cache_hit_count_ + 1,
                    cached_ranges_ := m.cached_ranges_ ++ [range] }, r.2)

/-- The method `PlasmaCacheManager::cacheFileRange`. -/
def cacheFileRange {σ : Type} (SHA1 : CString → ObjectID) (cl : PlasmaClient σ)
    (m : PlasmaCacheManager) (s : σ) (range : ReadRange) (data : Bytes) :
    Except Fault (Bool × PlasmaCacheManager × σ) :=
  if !m.client_ then .error .nullClient
  else
    let oid := objectIdOfFileRange SHA1 m range
    let c := cl.Create oid data.length s
    if IsPlasmaObjectExists c.1 then .ok (false, m, c.2)
    else if IsPlasmaStoreFull c.1 then .ok (false, m, c.2)
    else if !c.1.ok then .ok (false, m, c.2)
    else
      let s2 := cl.memcpy oid data c.2
      let se := cl.Seal oid s2
      if !se.1.ok then
        let ab := cl.Abort oid se.2
        let rl := cl.Release oid ab.2
        .ok (false, m, rl.2)
      else
        let rl := cl.Release oid se.2
        if !rl.1.ok then .ok (false, m, rl.2)
        else .ok (true, { m with cached_ranges_ := m.cached_ranges_ ++ [range] }, rl.2)

/-- The method `PlasmaCacheManager::deleteFileRange`. -/
def deleteFileRange {σ : Type} (SHA1 : CString → ObjectID) (cl : PlasmaClient σ)
    (m : PlasmaCacheManager) (s : σ) (range : ReadRange) :
    Except Fault (Bool × PlasmaCacheManager × σ) :=
  if !m.client_ then .error .nullClient
  else
    let r := cl.Delete (objectIdOfFileRange SHA1 m range) s
    if !r.1.ok then .ok (false, m, r.2) else .ok (true, m, r.2)

/-! ## The flush to redis and `close()` -/

/-- The calls of `sw::redis::Redis` the manager makes, as transitions of a registry state
`ρ`. The flag is `false` when the call throws `sw::redis::Error`. -/
structure RedisClient (ρ : Type) where
  incrby : CString → Int → ρ → Bool × ρ
  zadd : CString → List (CString × Int) → ρ → Bool × ρ

/-- The method `PlasmaCacheManager::setCacheRedis`; `made` tells whether the construction
of the redis object went through without `sw::redis::Error`. -/
def setCacheRedis (made : Bool) (m : PlasmaCacheManager) : PlasmaCacheManager :=
  if made then { m with redis_ := true } else m

/-- Number of halvings that bring a natural number below `2 ^ 53`. -/
def excessBits : Nat → Nat → Nat
  | 0, _ => 0
  | fuel + 1, n => if n < 9007199254740992 then 0 else excessBits fuel (n / 2) + 1

/-- The natural number a `double` holds after conversion from `n`, rounding to nearest,
ties to even. -/
def roundToDouble (n : Nat) : Nat :=
  let e := excessBits 64 n
  let q := n / 2 ^ e
  let r := n % 2 ^ e
  if 2 * r > 2 ^ e ∨ (2 * r = 2 ^ e ∧ q % 2 = 1) then (q + 1) * 2 ^ e else q * 2 ^ e

/-- The value of the `double` an `int64_t` converts to. -/
def toDouble (x : Int) : Int :=
  if x < 0 then -((roundToDouble x.natAbs : Nat) : Int) else ((roundToDouble x.natAbs : Nat) : Int)

/-- The complete output of the format `"%d_%d_%s"` in `setCacheInfoToRedis`. -/
def memberOutput (m : PlasmaCacheManager) (range : ReadRange) : CString :=
  fmt_d range.offset ++ ['_'] ++ fmt_d range.length ++ ['_'] ++ c_str m.hostname

/-- The string `member` built for one range in `setCacheInfoToRedis`. -/
def memberOf (m : PlasmaCacheManager) (range : ReadRange) : CString :=
  snprintf 1024 (memberOutput m range)

/-- The call `scores.insert` on the `std::unordered_map`: an entry whose key is present
already is not inserted. -/
def scoresInsert (scores : List (CString × Int)) (e : CString × Int) : List (CString × Int) :=
  if scores.any (fun x => x.1 == e.1) then scores else scores ++ [e]

/-- The map `scores` after the loop over `cached_ranges_`, its entries in the order of
insertion (the order in which `zadd` receives them is not specified by the container). -/
def buildScores (m : PlasmaCacheManager) : List (CString × Int) :=
  m.cached_ranges_.foldl (fun sc range => scoresInsert sc (memberOf m range, toDouble range.offset)) []

/-- The name of the redis counter of hits. -/
def hitKey : CString := "pmem_cache_global_cache_hit".data

/-- The name of the redis counter of misses. -/
def missKey : CString := "pmem_cache_global_cache_missed".data

/-- The redis calls in the `try` block of `setCacheInfoToRedis`: the flag tells whether all
of them returned, the state is the registry after the last call made. -/
def flushWrites {ρ : Type} (rd : RedisClient ρ) (m : PlasmaCacheManager) (g : ρ) : Bool × ρ :=
  let h := rd.incrby hitKey m.cache_hit_count_ g
  if !h.1 then (false, h.2)
  else
    let ms := rd.incrby missKey m.cache_miss_count_ h.2
    if !ms.1 then (false, ms.2)
    else
      let scores := buildScores m
      if scores.length > 0 then rd.zadd m.file_path_ scores ms.2 else (true, ms.2)

/-- The method `PlasmaCacheManager::setCacheInfoToRedis`. -/
def setCacheInfoToRedis {ρ : Type} (rd : RedisClient ρ) (m : PlasmaCacheManager) (g : ρ) :
    PlasmaCacheManager × ρ :=
  if m.redis_ then
    let w := flushWrites rd m g
    if w.1 then
      ({ m with cache_hit_count_ := 0, cache_miss_count_ := 0, cached_ranges_ := [] }, w.2)
    else (m, w.2)
  else (m, g)

/-- The method `PlasmaCacheManager::close`. -/
def close {σ ρ : Type} (cl : PlasmaClient σ) (rd : RedisClient ρ) (m : PlasmaCacheManager)
    (s : σ) (g : ρ) : PlasmaCacheManager × σ × ρ :=
  if !m.client_ then (m, s, g)
  else
    let r := release cl m s
    let d := cl.Disconnect r.2
    let f := setCacheInfoToRedis rd { r.1 with client_ := false } g
    (f.1, d.2, f.2)

/-- A manager without a client retains no handle. Holds from construction on. -/
def Inv (m : PlasmaCacheManager) : Prop := m.client_ = false → m.object_ids = []

instance (m : PlasmaCacheManager) : Decidable (Inv m) := by unfold Inv; infer_instance

/-! ## Recording clients -/

/-- A call made to the plasma client. -/
inductive PlasmaCall where
  | Connect
  | Create (oid : ObjectID) (size : Nat)
  | Seal (oid : ObjectID)
  | Abort (oid : ObjectID)
  | Release (oid : ObjectID)
  | Get (oid : ObjectID) (timeout_ms : Nat)
  | Contains (oid : ObjectID)
  | Delete (oid : ObjectID)
  | Disconnect
deriving DecidableEq

/-- A plasma client that answers as `cl` does and records every call it receives. -/
def traced {σ : Type} (cl : PlasmaClient σ) : PlasmaClient (σ × List PlasmaCall) where
  Connect s := ((cl.Connect s.1).1, (cl.Connect s.1).2, s.2 ++ [.Connect])
  Create oid n s := ((cl.Create oid n s.1).1, (cl.Create oid n s.1).2, s.2 ++ [.Create oid n])
  memcpy oid data s := (cl.memcpy oid data s.1, s.2)
  Seal oid s := ((cl.Seal oid s.1).1, (cl.Seal oid s.1).2, s.2 ++ [.Seal oid])
  Abort oid s := ((cl.Abort oid s.1).1, (cl.Abort oid s.1).2, s.2 ++ [.Abort oid])
  Release oid s := ((cl.Release oid s.1).1, (cl.Release oid s.1).2, s.2 ++ [.Release oid])
  Get oid t s := ((cl.Get oid t s.1).1, (cl.Get oid t s.1).2, s.2 ++ [.Get oid t])
  Contains oid s := ((cl.Contains oid s.1).1, (cl.Contains oid s.1).2, s.2 ++ [.Contains oid])
  Delete oid s := ((cl.Delete oid s.1).1, (cl.Delete oid s.1).2, s.2 ++ [.Delete oid])
  Disconnect s := ((cl.Disconnect s.1).1, (cl.Disconnect s.1).2, s.2 ++ [.Disconnect])

/-- A call made to the redis client. -/
inductive RedisCall where
  | incrby (key : CString) (n : Int)
  | zadd (key : CString) (scores : List (CString × Int))
deriving DecidableEq

/-- A redis client that answers as `rd` does and records every call it receives. -/
def tracedRedis {ρ : Type} (rd : RedisClient ρ) : RedisClient (ρ × List RedisCall) where
  incrby key n g := ((rd.incrby key n g.1).1, (rd.incrby key n g.1).2, g.2 ++ [.incrby key n])
  zadd key sc g := ((rd.zadd key sc g.1).1, (rd.zadd key sc g.1).2, g.2 ++ [.zadd key sc])

/-! ## Reference collaborators -/

/-- An object of the store: its buffer, and whether it has been sealed. -/
structure PlasmaObject where
  data : Bytes
  sealed : Bool
deriving DecidableEq

/-- State of the reference object store: the object held under each identifier. -/
abbrev ObjectStore := ObjectID → Option PlasmaObject

/-- The effect of `memcpy(dst, src, n)` on the destination buffer. -/
def memcpyBytes (dst src : Bytes) (n : Nat) : Bytes := src.take n ++ dst.drop n

/-- Modelled from the spec: the object store collaborator, which is not part of the
sources. An object is absent, reserved (created, not sealed) or sealed; `create` is
exclusive and answers that the object exists otherwise; `seal` and `abort` apply to a
reserved object; `get` and `contains` see sealed objects only; `delete` removes the
object; `release` returns a handle and leaves the object in the store. -/
def refStore : PlasmaClient ObjectStore where
  Connect s := (.OK, s)
  Create oid size s :=
    match s oid with
    | some _ => (.PlasmaObjectExists, s)
    | none => (.OK, Function.update s oid (some ⟨List.replicate size 0, false⟩))
  memcpy oid data s :=
    match s oid with
    | some o =>
      if o.sealed then s
      else Function.update s oid (some ⟨memcpyBytes o.data data data.length, false⟩)
    | none => s
  Seal oid s :=
    match s oid with
    | some o =>
      if o.sealed then (.OtherError, s)
      else (.OK, Function.update s oid (some ⟨o.data, true⟩))
    | none => (.OtherError, s)
  Abort oid s :=
    match s oid with
    | some o => if o.sealed then (.OtherError, s) else (.OK, Function.update s oid none)
    | none => (.OtherError, s)
  Release _ s := (.OK, s)
  Get oid _ s :=
    match s oid with
    | some o => if o.sealed then ((.OK, some o.data), s) else ((.OK, none), s)
    | none => ((.OK, none), s)
  Contains oid s :=
    match s oid with
    | some o => ((.OK, o.sealed), s)
    | none => ((.OK, false), s)
  Delete oid s := (.OK, Function.update s oid none)
  Disconnect s := (.OK, s)

/-- The store holds a sealed object with contents `data` under `oid`. -/
def holds (s : ObjectStore) (oid : ObjectID) (data : Bytes) : Prop :=
  s oid = some ⟨data, true⟩

instance (s : ObjectStore) (oid : ObjectID) (data : Bytes) : Decidable (holds s oid data) := by
  unfold holds; infer_instance

/-- The store holds no readable object under `oid`: none at all, or one not sealed yet. -/
def lacks (s : ObjectStore) (oid : ObjectID) : Prop :=
  ∀ o, s oid = some o → o.sealed = false

/-- State of the reference registry: the cumulative counters, and for every key the score
of each member of its sorted collection. -/
structure Registry where
  counters : CString → Int
  zsets : CString → CString → Option Int

/-- Modelled from the spec: the remote registry collaborator, which is not part of the
sources. `incrby` adds to a counter, `zadd` upserts every member with its score into the
collection under the key; both always succeed. -/
def refRedis : RedisClient Registry where
  incrby key n g := (true, { g with counters := Function.update g.counters key (g.counters key + n) })
  zadd key scores g :=
    (true, { g with zsets := Function.update g.zsets key
                      (scores.foldl (fun z e => Function.update z e.1 (some e.2)) (g.zsets key)) })

/-- The registry with all counters at zero and no member. -/
def emptyRegistry : Registry := ⟨fun _ => 0, fun _ _ => none⟩

/-- The store with no object. -/
def emptyStore : ObjectStore := fun _ => none

/-- The statuses a scripted client gives. -/
structure Answers where
  onConnect : Status := .OK
  onCreate : Status := .OK
  onSeal : Status := .OK
  onAbort : Status := .OK
  onRelease : Status := .OK
  onGet : Status × Option Bytes := (.OK, none)
  onContains : Status × Bool := (.OK, false)
  onDelete : Status := .OK
  onDisconnect : Status := .OK

/-- A plasma client without state that gives the same scripted answer to every call of a
kind. -/
def scripted (a : Answers) : PlasmaClient Unit where
  Connect s := (a.onConnect, s)
  Create _ _ s := (a.onCreate, s)
  memcpy _ _ s := s
  Seal _ s := (a.onSeal, s)
  Abort _ s := (a.onAbort, s)
  Release _ s := (a.onRelease, s)
  Get _ _ s := (a.onGet, s)
  Contains _ s := (a.onContains, s)
  Delete _ s := (a.onDelete, s)
  Disconnect s := (a.onDisconnect, s)

/-- A redis client without state whose every call throws. -/
def failingRedis : RedisClient Unit where
  incrby _ _ g := (false, g)
  zadd _ _ g := (false, g)

/-- A stand-in for the digest function in evaluations: the codes of the last twenty
characters of the key, padded with zeros. -/
def sampleDigest (key : CString) : ObjectID :=
  ⟨((key.reverse.take 20).map (fun c => c.toNat % 256)) ++
      List.replicate (20 - ((key.reverse.take 20).map (fun c => c.toNat % 256)).length) 0, by
    simp only [List.length_append, List.length_map, List.length_take, List.length_reverse,
      List.length_replicate, SHA_DIGEST_LENGTH]
    omega⟩

/-! ## Sample inputs -/

/-- The file path of the scenario. -/
def tPath : CString := "/data/t.parquet".data

/-- A host name. -/
def node1 : CString := "node1".data

/-- A file path of one thousand characters. -/
def longPath : CString := List.replicate 1000 'a'

/-- A manager for a given path as the constructor leaves it after a successful connect. -/
def freshManager (path : CString) : PlasmaCacheManager :=
  (PlasmaCacheManager.new (scripted {}) node1 path ()).1

/-- A manager as the constructor leaves it when the connect fails. -/
def deadManager : PlasmaCacheManager :=
  (PlasmaCacheManager.new (scripted { onConnect := .OtherError }) node1 tPath ()).1

/-- One hundred bytes. -/
def bytes100 : Bytes := List.replicate 100 7

/-- The manager of the scenario: connected, for `/data/t.parquet`, with redis attached. -/
def scenarioManager : PlasmaCacheManager := setCacheRedis true (freshManager tPath)

/-- Unwraps the outcome of a method, with a default for the fault. -/
def orElse {α : Type} (d : α) : Except Fault α → α
  | .ok a => a
  | .error _ => d

/-- The state after `cacheFileRange` of `data` at `range` on the reference store, starting
from the manager `m` and the empty store. -/
def afterCache (m : PlasmaCacheManager) (range : ReadRange) (data : Bytes) :
    Bool × PlasmaCacheManager × ObjectStore :=
  orElse (false, m, emptyStore) (cacheFileRange sampleDigest refStore m emptyStore range data)

/-- The state after `cacheFileRange` and then `getFileRange` of the same range. -/
def afterCacheGet (m : PlasmaCacheManager) (range : ReadRange) (data : Bytes) :
    Option Bytes × PlasmaCacheManager × ObjectStore :=
  orElse (none, m, emptyStore)
    (getFileRange sampleDigest refStore (afterCache m range data).2.1
      (afterCache m range data).2.2 range)

/-- The state after a `containsFileRange` on the empty reference store. -/
def afterProbe (m : PlasmaCacheManager) (range : ReadRange) :
    Bool × PlasmaCacheManager × ObjectStore :=
  orElse (false, m, emptyStore) (containsFileRange sampleDigest refStore m emptyStore range)

/-! ## Decimal rendering and formatted output -/

/-- The digit characters of two digits are equal only for equal digits. -/
theorem digit_inj {a b : Nat} (ha : a < 10) (hb : b < 10) (h : digit a = digit b) : a = b := by
  interval_cases a <;> interval_cases b <;> first | rfl | (exfalso; revert h; decide)

/-- No digit character is the underscore. -/
theorem digit_ne_underscore {d : Nat} (hd : d < 10) : digit d ≠ '_' := by
  interval_cases d <;> decide

/-- No digit character is the minus sign. -/
theorem digit_ne_minus {d : Nat} (hd : d < 10) : digit d ≠ '-' := by
  interval_cases d <;> decide

/-- With enough fuel, a number of two digits or more renders as its quotient by ten followed by
its last digit. -/
theorem decimalFuel_step (fuel n : Nat) (h : n ≤ fuel) (h10 : 10 ≤ n) :
    decimalFuel fuel n = decimalFuel (fuel - 1) (n / 10) ++ [digit (n % 10)] := by
  cases fuel with
  | zero => omega
  | succ f =>
    have : ¬ n < 10 := by omega
    simp [decimalFuel, this]

/-- A number below ten renders as one digit, whatever the fuel. -/
theorem decimalFuel_small (fuel n : Nat) (h : n < 10) : decimalFuel fuel n = [digit n] := by
  cases fuel with
  | zero => simp [decimalFuel, Nat.mod_eq_of_lt h]
  | succ f => simp [decimalFuel, h]

/-- The rendering does not depend on the fuel, once there is enough of it. -/
theorem decimalFuel_indep (n : Nat) :
    ∀ f1 f2, n ≤ f1 → n ≤ f2 → decimalFuel f1 n = decimalFuel f2 n := by
  induction n using Nat.strong_induction_on with
  | _ n ih =>
    intro f1 f2 h1 h2
    by_cases h : n < 10
    · rw [decimalFuel_small _ _ h, decimalFuel_small _ _ h]
    · have h10 : 10 ≤ n := by omega
      rw [decimalFuel_step _ _ h1 h10, decimalFuel_step _ _ h2 h10]
      rw [ih (n / 10) (by omega) (f1 - 1) (f2 - 1) (by omega) (by omega)]

/-- Unfolding of the decimal rendering: one digit below ten, otherwise the rendering of the
quotient followed by the last digit. -/
theorem decimalNat_unfold (n : Nat) :
    decimalNat n = if n < 10 then [digit n] else decimalNat (n / 10) ++ [digit (n % 10)] := by
  by_cases h : n < 10
  · simp [h, decimalNat, decimalFuel_small _ _ h]
  · have h10 : 10 ≤ n := by omega
    simp only [h, if_false, decimalNat]
    rw [decimalFuel_step _ _ (le_refl n) h10]
    rw [decimalFuel_indep (n / 10) (n - 1) (n / 10) (by omega) (le_refl _)]

/-- The rendering of a natural number is never empty. -/
theorem decimalNat_ne_nil (n : Nat) : decimalNat n ≠ [] := by
  rw [decimalNat_unfold]; split <;> simp

/-- The rendering of a natural number consists of digit characters. -/
theorem decimalNat_digits (n : Nat) : ∀ c ∈ decimalNat n, ∃ d, d < 10 ∧ c = digit d := by
  induction n using Nat.strong_induction_on with
  | _ n ih =>
    intro c hc
    rw [decimalNat_unfold] at hc
    split at hc
    · simp at hc; exact ⟨n, by assumption, hc⟩
    · simp at hc
      rcases hc with hc | hc
      · exact ih (n / 10) (by omega) c hc
      · exact ⟨n % 10, by omega, hc⟩

/-- Two natural numbers with the same rendering are equal. -/
theorem decimalNat_inj (a : Nat) : ∀ b, decimalNat a = decimalNat b → a = b := by
  induction a using Nat.strong_induction_on with
  | _ a ih =>
    intro b h
    rw [decimalNat_unfold a, decimalNat_unfold b] at h
    by_cases ha : a < 10 <;> by_cases hb : b < 10
    · simp [ha, hb] at h; exact digit_inj ha hb h
    · simp [ha, hb] at h
      have := congrArg List.length h
      have hne := decimalNat_ne_nil (b / 10)
      cases hq : decimalNat (b / 10) with
      | nil => exact absurd hq hne
      | cons x xs => rw [hq] at this; simp at this
    · simp [ha, hb] at h
      have := congrArg List.length h
      have hne := decimalNat_ne_nil (a / 10)
      cases hq : decimalNat (a / 10) with
      | nil => exact absurd hq hne
      | cons x xs => rw [hq] at this; simp at this
    · simp only [ha, hb, if_false] at h
      have h' := List.append_inj' h (by simp)
      have h1 := ih (a / 10) (by omega) (b / 10) h'.1
      have h2 : a % 10 = b % 10 :=
        digit_inj (Nat.mod_lt _ (by decide)) (Nat.mod_lt _ (by decide)) (by simpa using h'.2)
      omega

/-- Two integers with the same rendering are equal. -/
theorem decimal_inj (x y : Int) (h : decimal x = decimal y) : x = y := by
  unfold decimal at h
  have hhead : ∀ (n : Nat) (l : CString), decimalNat n ≠ '-' :: l := by
    intro n l heq
    have := decimalNat_digits n '-' (by rw [heq]; simp)
    obtain ⟨d, hd, he⟩ := this
    exact digit_ne_minus hd he.symm
  by_cases hx : x < 0 <;> by_cases hy : y < 0
  · simp only [hx, hy, if_true] at h
    have := decimalNat_inj _ _ (List.cons_injective h)
    omega
  · simp only [hx, hy, if_true, if_false] at h
    exact absurd h.symm (hhead _ _)
  · simp only [hx, hy, if_true, if_false] at h
    exact absurd h (hhead _ _)
  · simp only [hx, hy, if_false] at h
    have := decimalNat_inj _ _ h
    omega

/-- The rendering of an integer contains no underscore. -/
theorem decimal_no_underscore (x : Int) : '_' ∉ decimal x := by
  intro h
  unfold decimal at h
  have key : '_' ∈ decimalNat x.natAbs := by
    split at h
    · rcases List.mem_cons.mp h with h | h
      · exact absurd h (by decide)
      · exact h
    · exact h
  obtain ⟨d, hd, he⟩ := decimalNat_digits _ _ key
  exact digit_ne_underscore hd he.symm

/-- A value in the range of `int` is its own low 32 bits. -/
theorem toInt32_of_isInt32 (x : Int) (h : isInt32 x) : toInt32 x = x := by
  unfold isInt32 at h
  unfold toInt32
  omega

/-- On the range of `int`, `%d` prints the decimal rendering of its argument. -/
theorem fmt_d_of_isInt32 (x : Int) (h : isInt32 x) : fmt_d x = decimal x := by
  unfold fmt_d; rw [toInt32_of_isInt32 x h]

/-- A string is cut in one way only at the first occurrence of a character. -/
theorem split_at_mark {c : Char} : ∀ (a a' b b' : CString), c ∉ a → c ∉ a' →
    a ++ c :: b = a' ++ c :: b' → a = a' ∧ b = b' := by
  intro a
  induction a with
  | nil =>
    intro a' b b' _ h2 h
    cases a' with
    | nil => simpa using h
    | cons x xs =>
      simp at h
      exact absurd (by rw [← h.1]; simp) h2
  | cons y ys ih =>
    intro a' b b' h1 h2 h
    cases a' with
    | nil =>
      simp at h
      exact absurd (by rw [h.1]; simp) h1
    | cons x xs =>
      simp at h
      have := ih xs b b' (fun hc => h1 (List.mem_cons_of_mem _ hc))
        (fun hc => h2 (List.mem_cons_of_mem _ hc)) h.2
      exact ⟨by rw [h.1, this.1], this.2⟩

/-- An output of fewer than 1024 characters is stored whole in a buffer of 1024. -/
theorem snprintf_of_fits (out : CString) (h : out.length < 1024) : snprintf 1024 out = out := by
  unfold snprintf
  exact List.take_of_length_le (by omega)

/-- A string without NUL is read whole by `%s`. -/
theorem c_str_of_no_NUL (p : CString) (h : NUL ∉ p) : c_str p = p := by
  unfold c_str
  rw [List.takeWhile_eq_self_iff]
  intro c hc
  simp only [bne_iff_ne, ne_eq]
  intro heq
  exact h (heq ▸ hc)

/-- A natural number below `10 ^ (k + 1)` has at most `k + 1` decimal digits. -/
theorem decimalNat_length_le (k : Nat) : ∀ n, n < 10 ^ (k + 1) → (decimalNat n).length ≤ k + 1 := by
  induction k with
  | zero =>
    intro n hn
    rw [decimalNat_unfold, if_pos (by simpa using hn)]
    simp
  | succ k ih =>
    intro n hn
    rw [decimalNat_unfold]
    split
    · simp
    · have : n / 10 < 10 ^ (k + 1) := by
        rw [Nat.div_lt_iff_lt_mul (by decide)]
        calc n < 10 ^ (k + 1 + 1) := hn
          _ = 10 ^ (k + 1) * 10 := by rw [pow_succ]
      have := ih (n / 10) this
      simp only [List.length_append, List.length_singleton]
      omega

/-- A value of type `int` prints in at most eleven characters. -/
theorem decimal_length_le (x : Int) (h : isInt32 x) : (decimal x).length ≤ 11 := by
  unfold isInt32 at h
  have hn : x.natAbs < 10 ^ (9 + 1) := by norm_num; omega
  have := decimalNat_length_le 9 _ hn
  unfold decimal
  split
  · simp only [List.length_cons]; omega
  · omega

/-- The C-string view is no longer than the string. -/
theorem c_str_length_le (s : CString) : (c_str s).length ≤ s.length := by
  unfold c_str
  exact (List.takeWhile_sublist _).length_le

/-- Naturals below `2 ^ 53` convert to `double` exactly. -/
theorem roundToDouble_small (n : Nat) (h : n < 9007199254740992) : roundToDouble n = n := by
  have he : excessBits 64 n = 0 := by
    show excessBits (63 + 1) n = 0
    simp [excessBits, h]
  simp [roundToDouble, he, Nat.mod_one]

/-- Values in the range of `int` convert to `double` exactly. -/
theorem toDouble_of_isInt32 (x : Int) (h : isInt32 x) : toDouble x = x := by
  unfold isInt32 at h
  unfold toDouble
  have hn : x.natAbs < 9007199254740992 := by omega
  rw [roundToDouble_small _ hn]
  split <;> omega

/-! ## Cache keys and object identifiers -/

/-- The literal at the head of a key has 27 characters. -/
theorem keyHead_length : keyHead.length = 27 := by decide

/-- Length of the formatted key. -/
theorem keyOutput_length (m : PlasmaCacheManager) (range : ReadRange) :
    (keyOutput m range).length =
      (c_str m.file_path_).length + (fmt_d range.offset).length + (fmt_d range.length).length
        + 29 := by
  simp only [keyOutput, List.length_append, List.length_singleton, keyHead_length]
  omega

/-- Length of the key string of the specification. -/
theorem specKey_length (p : CString) (range : ReadRange) :
    (specKey p range).length =
      p.length + (decimal range.offset).length + (decimal range.length).length + 29 := by
  simp only [specKey, List.length_append, List.length_singleton, keyHead_length]
  omega

/-- For the path of one thousand characters the key is the first 1023 characters of the head
and the path, whatever the range. -/
theorem longPath_key_truncated (range : ReadRange) :
    cacheKeyofFileRange (freshManager longPath) range = (keyHead ++ longPath).take 1023 := by
  have hp : c_str longPath = longPath := by
    apply c_str_of_no_NUL
    intro h
    have := List.eq_of_mem_replicate h
    revert this; decide
  have hm : (freshManager longPath).file_path_ = longPath := rfl
  unfold cacheKeyofFileRange snprintf keyOutput
  rw [hm, hp]
  simp only [List.append_assoc]
  rw [← List.append_assoc]
  rw [List.take_append_of_le_length]
  rw [List.length_append, keyHead_length, longPath, List.length_replicate]
  decide

/-- Key and identifier of a range depend on the manager through its file path only. -/
theorem objectId_of_same_path (SHA1 : CString → ObjectID) (m m2 : PlasmaCacheManager)
    (range : ReadRange) (h : m2.file_path_ = m.file_path_) :
    cacheKeyofFileRange m2 range = cacheKeyofFileRange m range ∧
    objectIdOfFileRange SHA1 m2 range = objectIdOfFileRange SHA1 m range := by
  simp [objectIdOfFileRange, cacheKeyofFileRange, keyOutput, h]

/-- Claim C1, counterexample. Two ranges that differ get the same key from
`cacheKeyofFileRange`: for a path of one thousand characters the ranges `(0, 1)` and `(0, 2)`,
because the buffer of 1024 characters cuts the output before the range; for the path
`/data/t.parquet` the ranges `(0, 100)` and `(4294967296, 100)`, because `%d` prints the low
32 bits of the offset. All values lie in the range of `int64_t`. -/
theorem cacheKey_collision :
    (isInt64 0 ∧ isInt64 1 ∧ isInt64 2 ∧ isInt64 4294967296 ∧ isInt64 100) ∧
    ((⟨0, 1⟩ : ReadRange) ≠ ⟨0, 2⟩ ∧
      cacheKeyofFileRange (freshManager longPath) ⟨0, 1⟩ =
        cacheKeyofFileRange (freshManager longPath) ⟨0, 2⟩) ∧
    ((⟨0, 100⟩ : ReadRange) ≠ ⟨4294967296, 100⟩ ∧
      cacheKeyofFileRange (freshManager tPath) ⟨0, 100⟩ =
        cacheKeyofFileRange (freshManager tPath) ⟨4294967296, 100⟩) := by
  refine ⟨by decide, ⟨by decide, ?_⟩, ⟨by decide, by decide⟩⟩
  rw [longPath_key_truncated, longPath_key_truncated]

/-- Claim C1, amended. For every manager (file path) and every two ranges whose offsets and
lengths lie in the range of a signed 32-bit `int` and whose formatted keys fit the buffer
(fewer than 1024 characters), if the ranges differ in offset or in length then
`cacheKeyofFileRange` returns two different keys, and `objectIdOfFileRange` returns different
identifiers whenever `SHA1` does not collide on the two keys. -/
theorem cacheKey_injective (SHA1 : CString → ObjectID) (m : PlasmaCacheManager)
    (r1 r2 : ReadRange)
    (h1o : isInt32 r1.offset) (h1l : isInt32 r1.length)
    (h2o : isInt32 r2.offset) (h2l : isInt32 r2.length)
    (hfit1 : (keyOutput m r1).length < 1024) (hfit2 : (keyOutput m r2).length < 1024)
    (hne : r1.offset ≠ r2.offset ∨ r1.length ≠ r2.length) :
    cacheKeyofFileRange m r1 ≠ cacheKeyofFileRange m r2 ∧
    (SHA1 (cacheKeyofFileRange m r1) ≠ SHA1 (cacheKeyofFileRange m r2) →
      objectIdOfFileRange SHA1 m r1 ≠ objectIdOfFileRange SHA1 m r2) := by
  refine ⟨?_, fun h => h⟩
  intro heq
  unfold cacheKeyofFileRange at heq
  rw [snprintf_of_fits _ hfit1, snprintf_of_fits _ hfit2] at heq
  unfold keyOutput at heq
  rw [fmt_d_of_isInt32 _ h1o, fmt_d_of_isInt32 _ h1l, fmt_d_of_isInt32 _ h2o,
    fmt_d_of_isInt32 _ h2l] at heq
  simp only [List.append_assoc, List.append_cancel_left_eq, List.singleton_append,
    List.cons.injEq, true_and] at heq
  have := split_at_mark _ _ _ _ (decimal_no_underscore _) (decimal_no_underscore _)
    (List.cons.inj heq).2
  have ho := decimal_inj _ _ this.1
  have hl := decimal_inj _ _ this.2
  rcases hne with h | h
  · exact h ho
  · exact h hl

/-- Witness of `cacheKey_injective` at `/data/t.parquet` and the ranges `(4096, 100)` and
`(4096, 200)`. -/
theorem cacheKey_injective_witness :
    cacheKeyofFileRange (freshManager tPath) ⟨4096, 100⟩ ≠
        cacheKeyofFileRange (freshManager tPath) ⟨4096, 200⟩ ∧
    (sampleDigest (cacheKeyofFileRange (freshManager tPath) ⟨4096, 100⟩) ≠
        sampleDigest (cacheKeyofFileRange (freshManager tPath) ⟨4096, 200⟩) →
      objectIdOfFileRange sampleDigest (freshManager tPath) ⟨4096, 100⟩ ≠
        objectIdOfFileRange sampleDigest (freshManager tPath) ⟨4096, 200⟩) :=
  cacheKey_injective sampleDigest (freshManager tPath) ⟨4096, 100⟩ ⟨4096, 200⟩
    (by decide) (by decide) (by decide) (by decide) (by decide) (by decide)
    (Or.inr (by decide))

/-- Claim C4, counterexample. The key differs from the string of the specification in three
cases: a path of one thousand characters (the key is cut at 1023 characters), the offset
`4294967296` (`%d` prints `0`), and a path that contains a NUL character (`%s` stops
there). -/
theorem cacheKey_not_specKey :
    (isInt64 0 ∧ isInt64 1 ∧ isInt64 4294967296 ∧ isInt64 100) ∧
    cacheKeyofFileRange (freshManager longPath) ⟨0, 1⟩ ≠ specKey longPath ⟨0, 1⟩ ∧
    cacheKeyofFileRange (freshManager tPath) ⟨4294967296, 100⟩ ≠
      specKey tPath ⟨4294967296, 100⟩ ∧
    cacheKeyofFileRange (freshManager [NUL, 'x']) ⟨0, 1⟩ ≠ specKey [NUL, 'x'] ⟨0, 1⟩ := by
  refine ⟨by decide, ?_, by decide, by decide⟩
  intro h
  have h1 := congrArg List.length h
  rw [longPath_key_truncated, specKey_length, List.length_take, List.length_append,
    keyHead_length, longPath, List.length_replicate] at h1
  revert h1
  decide

/-- Claim C4, amended. For every file path `p` and every range: when `p` has no NUL
character, offset and length lie in the range of a signed 32-bit `int`, and the key string
`"plasma_cache:parquet_chunk:" ++ p ++ ":" ++ decimal offset ++ "_" ++ decimal length` has fewer
than 1024 characters, `cacheKeyofFileRange` returns exactly that string and
`objectIdOfFileRange` returns the digest of exactly that string. For every path and range,
without any of these conditions, the identifier has 20 bytes and the results depend on
nothing but the path and the range: two managers for the same path get the same key and the
same identifier. -/
theorem cacheKey_eq_specKey (SHA1 : CString → ObjectID) (m : PlasmaCacheManager)
    (range : ReadRange) :
    (NUL ∉ m.file_path_ → isInt32 range.offset → isInt32 range.length →
      (specKey m.file_path_ range).length < 1024 →
      cacheKeyofFileRange m range = specKey m.file_path_ range ∧
      objectIdOfFileRange SHA1 m range = SHA1 (specKey m.file_path_ range)) ∧
    (objectIdOfFileRange SHA1 m range).val.length = 20 ∧
    ∀ m2 : PlasmaCacheManager, m2.file_path_ = m.file_path_ →
      cacheKeyofFileRange m2 range = cacheKeyofFileRange m range ∧
      objectIdOfFileRange SHA1 m2 range = objectIdOfFileRange SHA1 m range := by
  refine ⟨?_, (objectIdOfFileRange SHA1 m range).property, ?_⟩
  · intro hnul ho hl hfit
    have hk : keyOutput m range = specKey m.file_path_ range := by
      unfold keyOutput specKey
      rw [c_str_of_no_NUL _ hnul, fmt_d_of_isInt32 _ ho, fmt_d_of_isInt32 _ hl]
    have hkey : cacheKeyofFileRange m range = specKey m.file_path_ range := by
      unfold cacheKeyofFileRange
      rw [hk, snprintf_of_fits _ hfit]
    refine ⟨hkey, ?_⟩
    unfold objectIdOfFileRange
    rw [hkey]
  · intro m2 h2
    exact objectId_of_same_path SHA1 m m2 range h2

/-- Witness of `cacheKey_eq_specKey`: the key and the identifier at `/data/t.parquet` and the
range `(4096, 100)`; and, outside the conditions on the format (offset `4294967296`), the same
key and identifier for two managers of `/data/t.parquet`, one with redis attached and one
without. -/
theorem cacheKey_eq_specKey_witness :
    (cacheKeyofFileRange (freshManager tPath) ⟨4096, 100⟩ =
        "plasma_cache:parquet_chunk:/data/t.parquet:4096_100".data ∧
      objectIdOfFileRange sampleDigest (freshManager tPath) ⟨4096, 100⟩ =
        sampleDigest "plasma_cache:parquet_chunk:/data/t.parquet:4096_100".data) ∧
    (cacheKeyofFileRange scenarioManager ⟨4294967296, 100⟩ =
        cacheKeyofFileRange (freshManager tPath) ⟨4294967296, 100⟩ ∧
      objectIdOfFileRange sampleDigest scenarioManager ⟨4294967296, 100⟩ =
        objectIdOfFileRange sampleDigest (freshManager tPath) ⟨4294967296, 100⟩) :=
  ⟨(cacheKey_eq_specKey sampleDigest (freshManager tPath) ⟨4096, 100⟩).1
      (by decide) (by decide) (by decide) (by decide),
   (cacheKey_eq_specKey sampleDigest (freshManager tPath) ⟨4294967296, 100⟩).2.2
      scenarioManager rfl⟩

/-! ## The range methods over an arbitrary store -/

/-- On a manager without a client the four range methods dereference the null pointer,
whatever the store; `release()` and `close()` return at once. -/
theorem disconnected_ops {σ ρ : Type} (SHA1 : CString → ObjectID) (cl : PlasmaClient σ)
    (rd : RedisClient ρ) (m : PlasmaCacheManager) (s : σ) (g : ρ) (range : ReadRange)
    (data : Bytes) (h : m.client_ = false) :
    containsFileRange SHA1 cl m s range = .error .nullClient ∧
    getFileRange SHA1 cl m s range = .error .nullClient ∧
    cacheFileRange SHA1 cl m s range data = .error .nullClient ∧
    deleteFileRange SHA1 cl m s range = .error .nullClient ∧
    release cl m s = (m, s) ∧
    close cl rd m s g = (m, s, g) := by
  simp [containsFileRange, getFileRange, cacheFileRange, deleteFileRange, release, close, h]

/-- Claim C2, the code at the failing input. A manager whose `Connect` failed at construction
reports `connected() = false`, and `containsFileRange`, `getFileRange`, `cacheFileRange` and
`deleteFileRange` each dereference the null `client_` instead of returning a miss; `release()`
is guarded and does nothing. -/
theorem disconnected_manager_faults :
    connected deadManager = false ∧
    containsFileRange sampleDigest (scripted { onConnect := .OtherError }) deadManager ()
      ⟨4096, 100⟩ = .error .nullClient ∧
    getFileRange sampleDigest (scripted { onConnect := .OtherError }) deadManager ()
      ⟨4096, 100⟩ = .error .nullClient ∧
    cacheFileRange sampleDigest (scripted { onConnect := .OtherError }) deadManager ()
      ⟨4096, 100⟩ bytes100 = .error .nullClient ∧
    deleteFileRange sampleDigest (scripted { onConnect := .OtherError }) deadManager ()
      ⟨4096, 100⟩ = .error .nullClient ∧
    release (scripted { onConnect := .OtherError }) deadManager () = (deadManager, ()) :=
  ⟨rfl, rfl, rfl, rfl, rfl, rfl⟩

/-- On a connected manager, when `Create`, `Seal` and the `Release` after it all return OK,
`cacheFileRange` returns `true` and appends the range to `cached_ranges_`. -/
theorem cacheFileRange_of_ok {σ : Type} (SHA1 : CString → ObjectID) (cl : PlasmaClient σ)
    (m : PlasmaCacheManager) (s : σ) (range : ReadRange) (data : Bytes)
    (hc : m.client_ = true)
    (h1 : (cl.Create (objectIdOfFileRange SHA1 m range) data.length s).1.ok = true)
    (h2 : (cl.Seal (objectIdOfFileRange SHA1 m range)
            (cl.memcpy (objectIdOfFileRange SHA1 m range) data
              (cl.Create (objectIdOfFileRange SHA1 m range) data.length s).2)).1.ok = true)
    (h3 : (cl.Release (objectIdOfFileRange SHA1 m range)
            (cl.Seal (objectIdOfFileRange SHA1 m range)
              (cl.memcpy (objectIdOfFileRange SHA1 m range) data
                (cl.Create (objectIdOfFileRange SHA1 m range) data.length s).2)).2).1.ok = true) :
    cacheFileRange SHA1 cl m s range data =
      .ok (true, { m with cached_ranges_ := m.cached_ranges_ ++ [range] },
        (cl.Release (objectIdOfFileRange SHA1 m range)
          (cl.Seal (objectIdOfFileRange SHA1 m range)
            (cl.memcpy (objectIdOfFileRange SHA1 m range) data
              (cl.Create (objectIdOfFileRange SHA1 m range) data.length s).2)).2).2) := by
  have e1 : IsPlasmaObjectExists
      (cl.Create (objectIdOfFileRange SHA1 m range) data.length s).1 = false := by
    revert h1
    cases (cl.Create (objectIdOfFileRange SHA1 m range) data.length s).1 <;>
      simp [Status.ok, IsPlasmaObjectExists]
  have e2 : IsPlasmaStoreFull
      (cl.Create (objectIdOfFileRange SHA1 m range) data.length s).1 = false := by
    revert h1
    cases (cl.Create (objectIdOfFileRange SHA1 m range) data.length s).1 <;>
      simp [Status.ok, IsPlasmaStoreFull]
  simp only [cacheFileRange, hc, Bool.not_true, Bool.false_eq_true, if_false]
  simp [e1, e2, h1, h2, h3]

/-- On a connected manager, when `Create`, `Seal` or the `Release` after a good seal does
not return OK, `cacheFileRange` returns `false` and the manager is unchanged. -/
theorem cacheFileRange_of_not_ok {σ : Type} (SHA1 : CString → ObjectID) (cl : PlasmaClient σ)
    (m : PlasmaCacheManager) (s : σ) (range : ReadRange) (data : Bytes)
    (hc : m.client_ = true)
    (hn : ¬ ((cl.Create (objectIdOfFileRange SHA1 m range) data.length s).1.ok = true ∧
      (cl.Seal (objectIdOfFileRange SHA1 m range)
        (cl.memcpy (objectIdOfFileRange SHA1 m range) data
          (cl.Create (objectIdOfFileRange SHA1 m range) data.length s).2)).1.ok = true ∧
      (cl.Release (objectIdOfFileRange SHA1 m range)
        (cl.Seal (objectIdOfFileRange SHA1 m range)
          (cl.memcpy (objectIdOfFileRange SHA1 m range) data
            (cl.Create (objectIdOfFileRange SHA1 m range) data.length s).2)).2).1.ok = true)) :
    ∃ s', cacheFileRange SHA1 cl m s range data = .ok (false, m, s') := by
  simp only [cacheFileRange, hc, Bool.not_true, Bool.false_eq_true, if_false]
  split
  · exact ⟨_, rfl⟩
  · split
    · exact ⟨_, rfl⟩
    · split
      · exact ⟨_, rfl⟩
      · split
        · exact ⟨_, rfl⟩
        · split
          · exact ⟨_, rfl⟩
          · exfalso
            apply hn
            simp_all

/-- Claim C5, counterexample. With a store whose `Create` and `Seal` succeed and whose
`Release` fails, `cacheFileRange` returns `false` and leaves the manager unchanged, although
the create and the following seal succeeded. -/
theorem cacheFileRange_release_failure :
    ((scripted { onRelease := .OtherError }).Create
        (objectIdOfFileRange sampleDigest (freshManager tPath) ⟨4096, 100⟩) 100 ()).1.ok = true ∧
    ((scripted { onRelease := .OtherError }).Seal
        (objectIdOfFileRange sampleDigest (freshManager tPath) ⟨4096, 100⟩) ()).1.ok = true ∧
    cacheFileRange sampleDigest (scripted { onRelease := .OtherError }) (freshManager tPath) ()
      ⟨4096, 100⟩ bytes100 = .ok (false, freshManager tPath, ()) :=
  ⟨rfl, rfl, rfl⟩

/-- Claim C5, amended. For every connected manager, every range and every buffer,
`cacheFileRange` returns `true` and appends the range to the cached-range log (changing
nothing else of the manager) exactly when the store's create succeeds, the following seal
succeeds and the release after the seal succeeds; in every other outcome of the store calls
it returns `false` and leaves the manager, hence the cached-range log, both counters and the
retained-handle list, unchanged. -/
theorem cacheFileRange_outcome {σ : Type} (SHA1 : CString → ObjectID) (cl : PlasmaClient σ)
    (m : PlasmaCacheManager) (s : σ) (range : ReadRange) (data : Bytes)
    (hc : connected m = true) :
    let oid := objectIdOfFileRange SHA1 m range
    let c := cl.Create oid data.length s
    let se := cl.Seal oid (cl.memcpy oid data c.2)
    let rl := cl.Release oid se.2
    (c.1.ok = true ∧ se.1.ok = true ∧ rl.1.ok = true →
      cacheFileRange SHA1 cl m s range data =
        .ok (true, { m with cached_ranges_ := m.cached_ranges_ ++ [range] }, rl.2)) ∧
    (¬ (c.1.ok = true ∧ se.1.ok = true ∧ rl.1.ok = true) →
      ∃ s', cacheFileRange SHA1 cl m s range data = .ok (false, m, s')) := by
  intro oid c se rl
  exact ⟨fun h => cacheFileRange_of_ok SHA1 cl m s range data hc h.1 h.2.1 h.2.2,
    fun hn => cacheFileRange_of_not_ok SHA1 cl m s range data hc hn⟩

/-- Witness of `cacheFileRange_outcome` on the reference store: on the empty store the call
returns `true` and logs the range; on the store that holds the object already it returns
`false` and changes nothing. -/
theorem cacheFileRange_outcome_witness :
    (∃ s', cacheFileRange sampleDigest refStore (freshManager tPath) emptyStore ⟨4096, 100⟩
        bytes100 =
      .ok (true, { freshManager tPath with cached_ranges_ := [⟨4096, 100⟩] }, s')) ∧
    (∃ s', cacheFileRange sampleDigest refStore (freshManager tPath)
        (afterCache (freshManager tPath) ⟨4096, 100⟩ bytes100).2.2 ⟨4096, 100⟩ bytes100 =
      .ok (false, freshManager tPath, s')) :=
  ⟨⟨_, (cacheFileRange_outcome sampleDigest refStore (freshManager tPath) emptyStore
      ⟨4096, 100⟩ bytes100 rfl).1 ⟨rfl, by decide, rfl⟩⟩,
   (cacheFileRange_outcome sampleDigest refStore (freshManager tPath)
      (afterCache (freshManager tPath) ⟨4096, 100⟩ bytes100).2.2 ⟨4096, 100⟩ bytes100 rfl).2
      (by decide)⟩

/-- On a connected manager, a `Contains` that returns an error status makes
`containsFileRange` return `false` with the manager unchanged. -/
theorem containsFileRange_of_error {σ : Type} (SHA1 : CString → ObjectID) (cl : PlasmaClient σ)
    (m : PlasmaCacheManager) (s : σ) (range : ReadRange) (hc : m.client_ = true)
    (he : (cl.Contains (objectIdOfFileRange SHA1 m range) s).1.1.ok = false) :
    containsFileRange SHA1 cl m s range =
      .ok (false, m, (cl.Contains (objectIdOfFileRange SHA1 m range) s).2) := by
  simp [containsFileRange, hc, he]

/-- On a connected manager, a `Get` that returns an error status makes `getFileRange` return
the null buffer and count a miss. -/
theorem getFileRange_of_error {σ : Type} (SHA1 : CString → ObjectID) (cl : PlasmaClient σ)
    (m : PlasmaCacheManager) (s : σ) (range : ReadRange) (hc : m.client_ = true)
    (he : (cl.Get (objectIdOfFileRange SHA1 m range) 1000 s).1.1.ok = false) :
    getFileRange SHA1 cl m s range =
      .ok (none, { m with cache_miss_count_ := m.cache_miss_count_ + 1 },
        (cl.Get (objectIdOfFileRange SHA1 m range) 1000 s).2) := by
  simp [getFileRange, hc, he]

/-- On a connected manager, `containsFileRange` never faults: it returns the flag of the
store when the probe succeeds and the object is there, and `false` otherwise; the miss
counter grows by one exactly when the probe succeeds and reports the object absent. -/
theorem containsFileRange_cases {σ : Type} (SHA1 : CString → ObjectID) (cl : PlasmaClient σ)
    (m : PlasmaCacheManager) (s : σ) (range : ReadRange) (hc : m.client_ = true) :
    ∃ b m', containsFileRange SHA1 cl m s range =
        .ok (b, m', (cl.Contains (objectIdOfFileRange SHA1 m range) s).2) ∧
      (b = true → m' = m) ∧
      (m'.cache_miss_count_ = m.cache_miss_count_ + 1 ↔
        ((cl.Contains (objectIdOfFileRange SHA1 m range) s).1.1.ok = true ∧
         (cl.Contains (objectIdOfFileRange SHA1 m range) s).1.2 = false)) := by
  cases h1 : (cl.Contains (objectIdOfFileRange SHA1 m range) s).1.1.ok <;>
    cases h2 : (cl.Contains (objectIdOfFileRange SHA1 m range) s).1.2 <;>
    simp [containsFileRange, hc, h1, h2]

/-- Claim C7, the code at the failing input. When the existence probe `Contains` returns an
error status, `containsFileRange` returns `false` and `cache_miss_count_` stays at `0`;
`getFileRange` on a store whose `Get` returns an error status does count the miss. -/
theorem containsFileRange_error_not_counted :
    containsFileRange sampleDigest (scripted { onContains := (.OtherError, false) })
      (freshManager tPath) () ⟨4096, 100⟩ = .ok (false, freshManager tPath, ()) ∧
    (freshManager tPath).cache_miss_count_ = 0 ∧
    (orElse (none, freshManager tPath, ())
      (getFileRange sampleDigest (scripted { onGet := (.OtherError, none) })
        (freshManager tPath) () ⟨4096, 100⟩)).2.1.cache_miss_count_ = 1 :=
  ⟨rfl, rfl, rfl⟩

/-! ## Teardown: `release()` and `close()` -/

/-- The redis writes depend on the file path, the host name, the counters and the log only. -/
theorem flushWrites_congr {ρ : Type} (rd : RedisClient ρ) (m m' : PlasmaCacheManager) (g : ρ)
    (h1 : m'.file_path_ = m.file_path_) (h2 : m'.hostname = m.hostname)
    (h3 : m'.cache_hit_count_ = m.cache_hit_count_)
    (h4 : m'.cache_miss_count_ = m.cache_miss_count_)
    (h5 : m'.cached_ranges_ = m.cached_ranges_) :
    flushWrites rd m' g = flushWrites rd m g := by
  have hb : buildScores m' = buildScores m := by
    simp only [buildScores, memberOf, memberOutput, h2, h5]
  simp only [flushWrites, h1, h3, h4, hb]

/-- Unfolding of `close()` on a connected manager. -/
theorem close_connected {σ ρ : Type} (cl : PlasmaClient σ) (rd : RedisClient ρ)
    (m : PlasmaCacheManager) (s : σ) (g : ρ) (hc : m.client_ = true) :
    close cl rd m s g =
      ((setCacheInfoToRedis rd { m with object_ids := [], client_ := false } g).1,
       (cl.Disconnect (releaseAll cl m.object_ids s)).2,
       (setCacheInfoToRedis rd { m with object_ids := [], client_ := false } g).2) := by
  simp [close, release, hc]

/-- On a manager without client `close()` returns at once. -/
theorem close_disconnected {σ ρ : Type} (cl : PlasmaClient σ) (rd : RedisClient ρ)
    (m : PlasmaCacheManager) (s : σ) (g : ρ) (hc : m.client_ = false) :
    close cl rd m s g = (m, s, g) := by
  simp [close, hc]

/-- The flush when redis is attached and every write returns: counters and log are reset. -/
theorem setCacheInfoToRedis_flushed {ρ : Type} (rd : RedisClient ρ) (m : PlasmaCacheManager)
    (g : ρ) (hr : m.redis_ = true) (hw : (flushWrites rd m g).1 = true) :
    setCacheInfoToRedis rd m g =
      ({ m with cache_hit_count_ := 0, cache_miss_count_ := 0, cached_ranges_ := [] },
        (flushWrites rd m g).2) := by
  unfold setCacheInfoToRedis
  rw [if_pos hr]
  exact if_pos hw

/-- The flush when redis is attached and a write throws: the manager is left as it was. -/
theorem setCacheInfoToRedis_failed {ρ : Type} (rd : RedisClient ρ) (m : PlasmaCacheManager)
    (g : ρ) (hr : m.redis_ = true) (hw : (flushWrites rd m g).1 = false) :
    setCacheInfoToRedis rd m g = (m, (flushWrites rd m g).2) := by
  unfold setCacheInfoToRedis
  rw [if_pos hr]
  exact if_neg (by rw [hw]; decide)

/-- The flush without redis does nothing. -/
theorem setCacheInfoToRedis_unattached {ρ : Type} (rd : RedisClient ρ)
    (m : PlasmaCacheManager) (g : ρ) (hr : m.redis_ = false) :
    setCacheInfoToRedis rd m g = (m, g) := by
  unfold setCacheInfoToRedis
  exact if_neg (by rw [hr]; decide)

/-- The flush changes neither the client pointer nor the list of retained handles. -/
theorem setCacheInfoToRedis_keeps {ρ : Type} (rd : RedisClient ρ) (m : PlasmaCacheManager)
    (g : ρ) :
    (setCacheInfoToRedis rd m g).1.client_ = m.client_ ∧
    (setCacheInfoToRedis rd m g).1.object_ids = m.object_ids := by
  by_cases hr : m.redis_ = true
  · cases hw : (flushWrites rd m g).1
    · rw [setCacheInfoToRedis_failed rd m g hr hw]; exact ⟨rfl, rfl⟩
    · rw [setCacheInfoToRedis_flushed rd m g hr hw]; exact ⟨rfl, rfl⟩
  · rw [setCacheInfoToRedis_unattached rd m g (by simpa using hr)]; exact ⟨rfl, rfl⟩

/-- After `close()` on a connected manager the client is null and no handle is retained. -/
theorem close_disconnects {σ ρ : Type} (cl : PlasmaClient σ) (rd : RedisClient ρ)
    (m : PlasmaCacheManager) (s : σ) (g : ρ) (hc : m.client_ = true) :
    (close cl rd m s g).1.client_ = false ∧ (close cl rd m s g).1.object_ids = [] := by
  rw [close_connected cl rd m s g hc]
  exact setCacheInfoToRedis_keeps rd { m with object_ids := [], client_ := false } g

/-- Claim C9, counterexample. A connected manager that counted one miss keeps
`cache_miss_count_ = 1` after `close()`, both when no registry is attached and when a
registry is attached and its first write throws. -/
theorem close_keeps_counters :
    connected (afterProbe (freshManager tPath) ⟨4096, 100⟩).2.1 = true ∧
    (close refStore refRedis (afterProbe (freshManager tPath) ⟨4096, 100⟩).2.1 emptyStore
      emptyRegistry).1.cache_miss_count_ = 1 ∧
    connected (afterProbe scenarioManager ⟨4096, 100⟩).2.1 = true ∧
    (close refStore failingRedis (afterProbe scenarioManager ⟨4096, 100⟩).2.1 emptyStore
      ()).1.cache_miss_count_ = 1 := by
  decide

/-- Claim C9, amended. For every connected manager, after `close()`: `connected()` is false
and the retained-handle list is empty. When a registry is attached and every registry write
of the flush returns, `cache_hit_count_` and `cache_miss_count_` are 0 and the cached-range
log is empty; when no registry is attached, or a registry write throws, the two counters and
the cached-range log keep the values they had before `close()`. `close()` is a total
function: it reaches no fault in either case. -/
theorem close_resets {σ ρ : Type} (cl : PlasmaClient σ) (rd : RedisClient ρ)
    (m : PlasmaCacheManager) (s : σ) (g : ρ) (hc : connected m = true) :
    connected (close cl rd m s g).1 = false ∧
    (close cl rd m s g).1.object_ids = [] ∧
    (m.redis_ = true ∧ (flushWrites rd m g).1 = true →
      (close cl rd m s g).1.cache_hit_count_ = 0 ∧
      (close cl rd m s g).1.cache_miss_count_ = 0 ∧
      (close cl rd m s g).1.cached_ranges_ = []) ∧
    (¬ (m.redis_ = true ∧ (flushWrites rd m g).1 = true) →
      (close cl rd m s g).1.cache_hit_count_ = m.cache_hit_count_ ∧
      (close cl rd m s g).1.cache_miss_count_ = m.cache_miss_count_ ∧
      (close cl rd m s g).1.cached_ranges_ = m.cached_ranges_) := by
  have hc' : m.client_ = true := hc
  rw [close_connected cl rd m s g hc']
  have hf : flushWrites rd { m with object_ids := [], client_ := false } g = flushWrites rd m g :=
    flushWrites_congr rd m _ g rfl rfl rfl rfl rfl
  have hr0 : ({ m with object_ids := [], client_ := false } : PlasmaCacheManager).redis_ =
      m.redis_ := rfl
  generalize hm0 : ({ m with object_ids := [], client_ := false } : PlasmaCacheManager) = m0
    at hf hr0
  have f1 : m0.client_ = false := by rw [← hm0]
  have f2 : m0.object_ids = [] := by rw [← hm0]
  have f3 : m0.cache_hit_count_ = m.cache_hit_count_ := by rw [← hm0]
  have f4 : m0.cache_miss_count_ = m.cache_miss_count_ := by rw [← hm0]
  have f5 : m0.cached_ranges_ = m.cached_ranges_ := by rw [← hm0]
  by_cases hr : m.redis_ = true
  · cases hw : (flushWrites rd m g).1
    · rw [setCacheInfoToRedis_failed rd m0 g (hr0.trans hr) (hf ▸ hw)]
      exact ⟨f1, f2, fun h => absurd h.2 (by simp), fun _ => ⟨f3, f4, f5⟩⟩
    · rw [setCacheInfoToRedis_flushed rd m0 g (hr0.trans hr) (hf ▸ hw)]
      exact ⟨f1, f2, fun _ => ⟨rfl, rfl, rfl⟩, fun h => absurd ⟨hr, rfl⟩ h⟩
  · have hr' : m.redis_ = false := by simpa using hr
    rw [setCacheInfoToRedis_unattached rd m0 g (hr0.trans hr')]
    exact ⟨f1, f2, fun h => absurd h.1 hr, fun _ => ⟨f3, f4, f5⟩⟩

/-- Witness of `close_resets`: with the registry attached and reachable the hit counter of
the scenario is reset; without a registry the miss counter keeps its value. -/
theorem close_resets_witness :
    (connected (close refStore refRedis
        (afterCacheGet scenarioManager ⟨4096, 100⟩ bytes100).2.1
        (afterCacheGet scenarioManager ⟨4096, 100⟩ bytes100).2.2 emptyRegistry).1 = false ∧
      (close refStore refRedis (afterCacheGet scenarioManager ⟨4096, 100⟩ bytes100).2.1
        (afterCacheGet scenarioManager ⟨4096, 100⟩ bytes100).2.2
        emptyRegistry).1.cache_hit_count_ = 0) ∧
    (close refStore refRedis (afterProbe (freshManager tPath) ⟨4096, 100⟩).2.1 emptyStore
        emptyRegistry).1.cache_miss_count_ =
      (afterProbe (freshManager tPath) ⟨4096, 100⟩).2.1.cache_miss_count_ :=
  ⟨⟨(close_resets refStore refRedis (afterCacheGet scenarioManager ⟨4096, 100⟩ bytes100).2.1
      (afterCacheGet scenarioManager ⟨4096, 100⟩ bytes100).2.2 emptyRegistry (by decide)).1,
    ((close_resets refStore refRedis (afterCacheGet scenarioManager ⟨4096, 100⟩ bytes100).2.1
      (afterCacheGet scenarioManager ⟨4096, 100⟩ bytes100).2.2 emptyRegistry
      (by decide)).2.2.1 ⟨by decide, by decide⟩).1⟩,
   ((close_resets refStore refRedis (afterProbe (freshManager tPath) ⟨4096, 100⟩).2.1 emptyStore
      emptyRegistry (by decide)).2.2.2 (by decide)).2.1⟩

/-- A recorded `Release` answers as the client does and appends itself to the record. -/
theorem traced_Release {σ : Type} (cl : PlasmaClient σ) (oid : ObjectID) (s : σ)
    (t : List PlasmaCall) :
    (traced cl).Release oid (s, t) =
      ((cl.Release oid s).1, (cl.Release oid s).2, t ++ [PlasmaCall.Release oid]) := rfl

/-- The loop of `release()` records one `Release` per handle, in order. -/
theorem releaseAll_traced {σ : Type} (cl : PlasmaClient σ) :
    ∀ (ids : List ObjectID) (s : σ) (t : List PlasmaCall),
      (releaseAll (traced cl) ids (s, t)).2 = t ++ ids.map PlasmaCall.Release := by
  intro ids
  induction ids with
  | nil => intro s t; simp [releaseAll]
  | cons oid rest ih =>
    intro s t
    rw [releaseAll, traced_Release, ih]
    simp

/-- A second `release()` changes nothing. -/
theorem release_release {σ : Type} (cl : PlasmaClient σ) (m : PlasmaCacheManager) (s : σ) :
    release cl (release cl m s).1 (release cl m s).2 = release cl m s := by
  cases hc : m.client_
  · simp [release, hc]
  · simp [release, hc, releaseAll]

/-- A second `close()` changes nothing. -/
theorem close_close {σ ρ : Type} (cl : PlasmaClient σ) (rd : RedisClient ρ)
    (m : PlasmaCacheManager) (s : σ) (g : ρ) :
    close cl rd (close cl rd m s g).1 (close cl rd m s g).2.1 (close cl rd m s g).2.2 =
      close cl rd m s g := by
  cases hc : m.client_
  · rw [close_disconnected cl rd m s g hc]
    exact close_disconnected cl rd m s g hc
  · apply close_disconnected
    exact (close_disconnects cl rd m s g hc).1

/-- The constructor establishes `Inv`. -/
theorem Inv_new {σ : Type} (cl : PlasmaClient σ) (host path : CString) (s : σ) :
    Inv (PlasmaCacheManager.new cl host path s).1 := by
  by_cases h : (cl.Connect s).1.ok = true <;> simp [PlasmaCacheManager.new, Inv, h]

/-- A connected manager satisfies `Inv`. -/
theorem Inv_of_connected (m : PlasmaCacheManager) (h : m.client_ = true) : Inv m := by
  intro h'; rw [h] at h'; cases h'

/-- A `containsFileRange` that returns leaves a manager that satisfies `Inv`. -/
theorem Inv_containsFileRange {σ : Type} (SHA1 : CString → ObjectID) (cl : PlasmaClient σ)
    (m m' : PlasmaCacheManager) (s s' : σ) (range : ReadRange) (b : Bool)
    (h : containsFileRange SHA1 cl m s range = .ok (b, m', s')) : Inv m' := by
  cases hc : m.client_
  · simp [containsFileRange, hc] at h
  · apply Inv_of_connected
    simp only [containsFileRange, hc, Bool.not_true, Bool.false_eq_true, if_false] at h
    split at h
    · cases h; exact hc
    · split at h <;> (cases h; first | exact hc | rfl)

/-- A `getFileRange` that returns leaves a manager that satisfies `Inv`. -/
theorem Inv_getFileRange {σ : Type} (SHA1 : CString → ObjectID) (cl : PlasmaClient σ)
    (m m' : PlasmaCacheManager) (s s' : σ) (range : ReadRange) (b : Option Bytes)
    (h : getFileRange SHA1 cl m s range = .ok (b, m', s')) : Inv m' := by
  cases hc : m.client_
  · simp [getFileRange, hc] at h
  · apply Inv_of_connected
    simp only [getFileRange, hc, Bool.not_true, Bool.false_eq_true, if_false] at h
    split at h <;> (cases h; first | exact hc | rfl)

/-- A `cacheFileRange` that returns leaves a manager that satisfies `Inv`. -/
theorem Inv_cacheFileRange {σ : Type} (SHA1 : CString → ObjectID) (cl : PlasmaClient σ)
    (m m' : PlasmaCacheManager) (s s' : σ) (range : ReadRange) (data : Bytes) (b : Bool)
    (h : cacheFileRange SHA1 cl m s range data = .ok (b, m', s')) : Inv m' := by
  cases hc : m.client_
  · simp [cacheFileRange, hc] at h
  · apply Inv_of_connected
    by_cases hok :
        (cl.Create (objectIdOfFileRange SHA1 m range) data.length s).1.ok = true ∧
        (cl.Seal (objectIdOfFileRange SHA1 m range)
          (cl.memcpy (objectIdOfFileRange SHA1 m range) data
            (cl.Create (objectIdOfFileRange SHA1 m range) data.length s).2)).1.ok = true ∧
        (cl.Release (objectIdOfFileRange SHA1 m range)
          (cl.Seal (objectIdOfFileRange SHA1 m range)
            (cl.memcpy (objectIdOfFileRange SHA1 m range) data
              (cl.Create (objectIdOfFileRange SHA1 m range) data.length s).2)).2).1.ok = true
    · rw [cacheFileRange_of_ok SHA1 cl m s range data hc hok.1 hok.2.1 hok.2.2] at h
      cases h
      exact hc
    · obtain ⟨s2, h2⟩ := cacheFileRange_of_not_ok SHA1 cl m s range data hc hok
      rw [h2] at h
      cases h
      exact hc

/-- A `deleteFileRange` that returns leaves a manager that satisfies `Inv`. -/
theorem Inv_deleteFileRange {σ : Type} (SHA1 : CString → ObjectID) (cl : PlasmaClient σ)
    (m m' : PlasmaCacheManager) (s s' : σ) (range : ReadRange) (b : Bool)
    (h : deleteFileRange SHA1 cl m s range = .ok (b, m', s')) : Inv m' := by
  cases hc : m.client_
  · simp [deleteFileRange, hc] at h
  · apply Inv_of_connected
    simp only [deleteFileRange, hc, Bool.not_true, Bool.false_eq_true, if_false] at h
    split at h <;> (cases h; exact hc)

/-- The method `release()` keeps `Inv`. -/
theorem Inv_release {σ : Type} (cl : PlasmaClient σ) (m : PlasmaCacheManager) (s : σ)
    (h : Inv m) : Inv (release cl m s).1 := by
  cases hc : m.client_
  · simpa [release, hc] using h
  · intro _; simp [release, hc]

/-- The method `close()` keeps `Inv`. -/
theorem Inv_close {σ ρ : Type} (cl : PlasmaClient σ) (rd : RedisClient ρ)
    (m : PlasmaCacheManager) (s : σ) (g : ρ) (h : Inv m) : Inv (close cl rd m s g).1 := by
  cases hc : m.client_
  · rw [close_disconnected cl rd m s g hc]; exact h
  · intro _; exact (close_disconnects cl rd m s g hc).2

/-- The method `setCacheRedis` keeps `Inv`. -/
theorem Inv_setCacheRedis (made : Bool) (m : PlasmaCacheManager) (h : Inv m) :
    Inv (setCacheRedis made m) := by
  unfold setCacheRedis
  split
  · exact h
  · exact h

/-- Claim C10. For every manager that retains no handle while it has no client (`Inv`,
which holds in every reachable state), and every store and registry: `release()` leaves the
retained-handle list empty and issues exactly one `Release` per retained handle, in order,
and no other store call; a second `release()` changes nothing (manager, store and record of
calls are the same); `close()` followed by `close()` leaves the same manager, the same store
with the same record of store calls, and the same registry with the same record of registry
calls as one `close()`. -/
theorem teardown_idempotent {σ ρ : Type} (cl : PlasmaClient σ) (rd : RedisClient ρ)
    (m : PlasmaCacheManager) (s : σ) (t : List PlasmaCall) (g : ρ) (u : List RedisCall)
    (hinv : Inv m) :
    (release (traced cl) m (s, t)).1.object_ids = [] ∧
    (release (traced cl) m (s, t)).2.2 = t ++ m.object_ids.map PlasmaCall.Release ∧
    release (traced cl) (release (traced cl) m (s, t)).1 (release (traced cl) m (s, t)).2 =
      release (traced cl) m (s, t) ∧
    close (traced cl) (tracedRedis rd)
        (close (traced cl) (tracedRedis rd) m (s, t) (g, u)).1
        (close (traced cl) (tracedRedis rd) m (s, t) (g, u)).2.1
        (close (traced cl) (tracedRedis rd) m (s, t) (g, u)).2.2 =
      close (traced cl) (tracedRedis rd) m (s, t) (g, u) := by
  refine ⟨?_, ?_, release_release _ m _, close_close _ _ m _ _⟩
  · cases hc : m.client_
    · simp [release, hc, hinv hc]
    · simp [release, hc]
  · cases hc : m.client_
    · simp [release, hc, hinv hc]
    · simp [release, hc, releaseAll_traced]

/-- Witness of `teardown_idempotent` at the manager that cached and read back the range
`(4096, 100)`: `release()` issues the one `Release` of the retained handle. -/
theorem teardown_idempotent_witness :
    (release (traced refStore) (afterCacheGet scenarioManager ⟨4096, 100⟩ bytes100).2.1
      ((afterCacheGet scenarioManager ⟨4096, 100⟩ bytes100).2.2, [])).2.2 =
      [PlasmaCall.Release (objectIdOfFileRange sampleDigest scenarioManager ⟨4096, 100⟩)] :=
  (teardown_idempotent refStore refRedis (afterCacheGet scenarioManager ⟨4096, 100⟩ bytes100).2.1
    (afterCacheGet scenarioManager ⟨4096, 100⟩ bytes100).2.2 [] emptyRegistry []
    (by decide)).2.1

/-! ## The range methods over the reference store -/

/-- The reference store returns the bytes of a sealed object. -/
theorem refStore_Get_of_holds (s : ObjectStore) (oid : ObjectID) (data : Bytes) (t : Nat)
    (h : holds s oid data) : refStore.Get oid t s = ((.OK, some data), s) := by
  unfold holds at h
  simp [refStore, h]

/-- The reference store returns a null buffer when it has no sealed object. -/
theorem refStore_Get_of_lacks (s : ObjectStore) (oid : ObjectID) (t : Nat)
    (h : lacks s oid) : refStore.Get oid t s = ((.OK, none), s) := by
  unfold lacks at h
  cases ho : s oid with
  | none => simp [refStore, ho]
  | some o => simp [refStore, ho, h o ho]

/-- The reference store reports an object absent when it has no sealed object. -/
theorem refStore_Contains_of_lacks (s : ObjectStore) (oid : ObjectID)
    (h : lacks s oid) : refStore.Contains oid s = ((.OK, false), s) := by
  unfold lacks at h
  cases ho : s oid with
  | none => simp [refStore, ho]
  | some o => simp [refStore, ho, h o ho]

/-- A hit: `getFileRange` on the reference store that holds the sealed object. -/
theorem getFileRange_of_holds (SHA1 : CString → ObjectID) (m : PlasmaCacheManager)
    (s : ObjectStore) (range : ReadRange) (data : Bytes) (hc : m.client_ = true)
    (h : holds s (objectIdOfFileRange SHA1 m range) data) :
    getFileRange SHA1 refStore m s range =
      .ok (some data,
        { m with object_ids := m.object_ids ++ [objectIdOfFileRange SHA1 m range],
                 cache_hit_count_ := m.cache_hit_count_ + 1,
                 cached_ranges_ := m.cached_ranges_ ++ [range] }, s) := by
  simp [getFileRange, hc, refStore_Get_of_holds s _ data 1000 h, Status.ok]

/-- A miss: `getFileRange` on the reference store without the sealed object. -/
theorem getFileRange_of_lacks (SHA1 : CString → ObjectID) (m : PlasmaCacheManager)
    (s : ObjectStore) (range : ReadRange) (hc : m.client_ = true)
    (h : lacks s (objectIdOfFileRange SHA1 m range)) :
    getFileRange SHA1 refStore m s range =
      .ok (none, { m with cache_miss_count_ := m.cache_miss_count_ + 1 }, s) := by
  simp [getFileRange, hc, refStore_Get_of_lacks s _ 1000 h, Status.ok]

/-- A miss: `containsFileRange` on the reference store without the sealed object. -/
theorem containsFileRange_of_lacks (SHA1 : CString → ObjectID) (m : PlasmaCacheManager)
    (s : ObjectStore) (range : ReadRange) (hc : m.client_ = true)
    (h : lacks s (objectIdOfFileRange SHA1 m range)) :
    containsFileRange SHA1 refStore m s range =
      .ok (false, { m with cache_miss_count_ := m.cache_miss_count_ + 1 }, s) := by
  simp [containsFileRange, hc, refStore_Contains_of_lacks s _ h, Status.ok]

/-- On the empty reference store `cacheFileRange` returns `true` for every connected manager. -/
theorem afterCache_eq (m : PlasmaCacheManager) (range : ReadRange) (data : Bytes)
    (hc : m.client_ = true) :
    cacheFileRange sampleDigest refStore m emptyStore range data =
      .ok (true, (afterCache m range data).2.1, (afterCache m range data).2.2) := by
  have h := cacheFileRange_of_ok sampleDigest refStore m emptyStore range data hc
    (by simp [refStore, emptyStore, Status.ok]) (by simp [refStore, emptyStore, Status.ok])
    (by simp [refStore, Status.ok])
  simp only [afterCache, h, orElse]

/-- Claim C6. For every connected manager and range, on the reference store: when the store
holds no sealed object under the identifier of the range, `containsFileRange` returns `false`
and raises `cache_miss_count_` by one, and a following `getFileRange` returns the null buffer
and raises it by one again (two in all), neither changing anything else of the manager or the
store; when the store holds the sealed object, `getFileRange` returns its bytes, raises
`cache_hit_count_` by one, leaves `cache_miss_count_`, appends the range to `cached_ranges_`
and the identifier to `object_ids`. -/
theorem hit_miss_accounting (SHA1 : CString → ObjectID) (m : PlasmaCacheManager)
    (s : ObjectStore) (range : ReadRange) (hc : connected m = true) :
    (lacks s (objectIdOfFileRange SHA1 m range) →
      containsFileRange SHA1 refStore m s range =
        .ok (false, { m with cache_miss_count_ := m.cache_miss_count_ + 1 }, s) ∧
      getFileRange SHA1 refStore { m with cache_miss_count_ := m.cache_miss_count_ + 1 } s range =
        .ok (none, { m with cache_miss_count_ := m.cache_miss_count_ + 2 }, s)) ∧
    (∀ data, holds s (objectIdOfFileRange SHA1 m range) data →
      getFileRange SHA1 refStore m s range =
        .ok (some data,
          { m with object_ids := m.object_ids ++ [objectIdOfFileRange SHA1 m range],
                   cache_hit_count_ := m.cache_hit_count_ + 1,
                   cached_ranges_ := m.cached_ranges_ ++ [range] }, s)) := by
  have hc' : m.client_ = true := hc
  refine ⟨fun h => ⟨containsFileRange_of_lacks SHA1 m s range hc' h, ?_⟩,
    fun data h => getFileRange_of_holds SHA1 m s range data hc' h⟩
  exact getFileRange_of_lacks SHA1 { m with cache_miss_count_ := m.cache_miss_count_ + 1 } s
    range hc' h

/-- Witness of `hit_miss_accounting`: the miss on the empty store, and the hit on the store
that holds the range `(4096, 100)`. -/
theorem hit_miss_accounting_witness :
    (containsFileRange sampleDigest refStore scenarioManager emptyStore ⟨4096, 100⟩ =
        .ok (false, { scenarioManager with cache_miss_count_ := 1 }, emptyStore) ∧
      getFileRange sampleDigest refStore { scenarioManager with cache_miss_count_ := 1 }
          emptyStore ⟨4096, 100⟩ =
        .ok (none, { scenarioManager with cache_miss_count_ := 2 }, emptyStore)) ∧
    (getFileRange sampleDigest refStore scenarioManager
        (afterCache scenarioManager ⟨4096, 100⟩ bytes100).2.2 ⟨4096, 100⟩ =
      .ok (some bytes100,
        { scenarioManager with
            object_ids := [objectIdOfFileRange sampleDigest scenarioManager ⟨4096, 100⟩],
            cache_hit_count_ := 1,
            cached_ranges_ := [⟨4096, 100⟩] },
        (afterCache scenarioManager ⟨4096, 100⟩ bytes100).2.2)) :=
  ⟨(hit_miss_accounting sampleDigest scenarioManager emptyStore ⟨4096, 100⟩ rfl).1
      (fun o h => by simp [emptyStore] at h),
   (hit_miss_accounting sampleDigest scenarioManager
      (afterCache scenarioManager ⟨4096, 100⟩ bytes100).2.2 ⟨4096, 100⟩ rfl).2 bytes100
      (by decide)⟩

/-- Copying `data` over a fresh buffer of its size gives `data`. -/
theorem memcpyBytes_fresh (data : Bytes) :
    memcpyBytes (List.replicate data.length 0) data data.length = data := by
  simp [memcpyBytes]

/-- When `cacheFileRange` returns `true` on the reference store, the manager is connected,
only its log has grown, and the store holds the data sealed under the identifier. -/
theorem cacheFileRange_true_holds (SHA1 : CString → ObjectID) (m m' : PlasmaCacheManager)
    (s s' : ObjectStore) (range : ReadRange) (data : Bytes)
    (hput : cacheFileRange SHA1 refStore m s range data = .ok (true, m', s')) :
    m.client_ = true ∧ m' = { m with cached_ranges_ := m.cached_ranges_ ++ [range] } ∧
    holds s' (objectIdOfFileRange SHA1 m range) data := by
  cases hc : m.client_
  · simp [cacheFileRange, hc] at hput
  · refine ⟨rfl, ?_⟩
    cases hs : s (objectIdOfFileRange SHA1 m range) with
    | some o =>
      simp [cacheFileRange, hc, refStore, hs, IsPlasmaObjectExists] at hput
    | none =>
      simp [cacheFileRange, hc, refStore, hs, IsPlasmaObjectExists, IsPlasmaStoreFull,
        Status.ok, memcpyBytes_fresh] at hput
      refine ⟨hput.1.symm, ?_⟩
      rw [← hput.2]
      simp [holds]

/-- Claim C3. On the reference store, if `cacheFileRange` of `data` at a range returns `true`,
then the manager is connected and a `getFileRange` of that range issued next returns a
non-null buffer equal to `data` (so of length `data.length`), both by the same manager and
by any other connected manager for the same file path. -/
theorem put_get_roundtrip (SHA1 : CString → ObjectID) (m m' : PlasmaCacheManager)
    (s s' : ObjectStore) (range : ReadRange) (data : Bytes)
    (hput : cacheFileRange SHA1 refStore m s range data = .ok (true, m', s')) :
    connected m = true ∧
    (∃ m1, getFileRange SHA1 refStore m' s' range = .ok (some data, m1, s')) ∧
    (∀ m2 : PlasmaCacheManager, connected m2 = true → m2.file_path_ = m.file_path_ →
      ∃ m3, getFileRange SHA1 refStore m2 s' range = .ok (some data, m3, s')) := by
  obtain ⟨hc, hm', hh⟩ := cacheFileRange_true_holds SHA1 m m' s s' range data hput
  have other : ∀ m2 : PlasmaCacheManager, connected m2 = true → m2.file_path_ = m.file_path_ →
      ∃ m3, getFileRange SHA1 refStore m2 s' range = .ok (some data, m3, s') := by
    intro m2 h2 hp
    have hid := (objectId_of_same_path SHA1 m m2 range hp).2
    exact ⟨_, getFileRange_of_holds SHA1 m2 s' range data h2 (hid ▸ hh)⟩
  refine ⟨hc, other m' ?_ ?_, other⟩
  · rw [hm']; exact hc
  · rw [hm']

/-- Witness of `put_get_roundtrip`: one hundred bytes cached at offset 4096 of
`/data/t.parquet` on the empty store are read back. -/
theorem put_get_roundtrip_witness :
    ∃ m1, getFileRange sampleDigest refStore (afterCache scenarioManager ⟨4096, 100⟩ bytes100).2.1
        (afterCache scenarioManager ⟨4096, 100⟩ bytes100).2.2 ⟨4096, 100⟩ =
      .ok (some bytes100, m1, (afterCache scenarioManager ⟨4096, 100⟩ bytes100).2.2) :=
  (put_get_roundtrip sampleDigest scenarioManager _ emptyStore _ ⟨4096, 100⟩ bytes100
    (afterCache_eq scenarioManager ⟨4096, 100⟩ bytes100 rfl)).2.1

/-! ## The flush to the reference registry -/

/-- With offset and length in 32 bits and a host name of at most 255 characters the member
fits the buffer. -/
theorem memberOutput_fits (m : PlasmaCacheManager) (r : ReadRange)
    (ho : isInt32 r.offset) (hl : isInt32 r.length) (hh : m.hostname.length ≤ 255) :
    (memberOutput m r).length < 1024 := by
  unfold memberOutput
  rw [fmt_d_of_isInt32 _ ho, fmt_d_of_isInt32 _ hl]
  have h1 := decimal_length_le _ ho
  have h2 := decimal_length_le _ hl
  have h3 := c_str_length_le m.hostname
  simp only [List.length_append, List.length_singleton]
  omega

/-- Within 32 bits, two ranges with the same member have the same offset. -/
theorem memberOf_offset (m : PlasmaCacheManager) (r1 r2 : ReadRange)
    (h1 : isInt32 r1.offset) (h2 : isInt32 r2.offset)
    (hf1 : (memberOutput m r1).length < 1024) (hf2 : (memberOutput m r2).length < 1024)
    (h : memberOf m r1 = memberOf m r2) : r1.offset = r2.offset := by
  unfold memberOf at h
  rw [snprintf_of_fits _ hf1, snprintf_of_fits _ hf2] at h
  unfold memberOutput at h
  rw [fmt_d_of_isInt32 _ h1, fmt_d_of_isInt32 _ h2] at h
  simp only [List.append_assoc, List.singleton_append] at h
  exact decimal_inj _ _
    (split_at_mark _ _ _ _ (decimal_no_underscore _) (decimal_no_underscore _) h).1

/-- Every entry of the map built from a list of ranges comes from one of the ranges, and every
range has an entry under its member. -/
theorem scores_fold (m : PlasmaCacheManager) (rs : List ReadRange) :
    ∀ acc : List (CString × Int),
      (∀ e ∈ rs.foldl (fun sc range => scoresInsert sc (memberOf m range, toDouble range.offset))
          acc, e ∈ acc ∨ ∃ r ∈ rs, e = (memberOf m r, toDouble r.offset)) ∧
      (∀ e ∈ acc, e ∈ rs.foldl
          (fun sc range => scoresInsert sc (memberOf m range, toDouble range.offset)) acc) ∧
      (∀ r ∈ rs, ∃ v, (memberOf m r, v) ∈ rs.foldl
          (fun sc range => scoresInsert sc (memberOf m range, toDouble range.offset)) acc) := by
  induction rs with
  | nil => intro acc; simp
  | cons r rest ih =>
    intro acc
    simp only [List.foldl_cons]
    obtain ⟨i1, i2, i3⟩ := ih (scoresInsert acc (memberOf m r, toDouble r.offset))
    have hsub : ∀ e ∈ acc, e ∈ scoresInsert acc (memberOf m r, toDouble r.offset) := by
      intro e he
      unfold scoresInsert
      split
      · exact he
      · exact List.mem_append_left _ he
    have hins : ∀ e ∈ scoresInsert acc (memberOf m r, toDouble r.offset),
        e ∈ acc ∨ e = (memberOf m r, toDouble r.offset) := by
      intro e he
      unfold scoresInsert at he
      split at he
      · exact Or.inl he
      · rcases List.mem_append.mp he with h | h
        · exact Or.inl h
        · exact Or.inr (by simpa using h)
    have hkey : ∃ v, (memberOf m r, v) ∈ scoresInsert acc (memberOf m r, toDouble r.offset) := by
      unfold scoresInsert
      split
      · rename_i hany
        obtain ⟨x, hx, hxk⟩ := List.any_eq_true.mp hany
        have : x.1 = memberOf m r := by simpa using hxk
        exact ⟨x.2, by rw [← this]; exact hx⟩
      · exact ⟨_, List.mem_append_right _ (List.mem_singleton.mpr rfl)⟩
    refine ⟨?_, ?_, ?_⟩
    · intro e he
      rcases i1 e he with h | ⟨r', hr', h⟩
      · rcases hins e h with h | h
        · exact Or.inl h
        · exact Or.inr ⟨r, List.mem_cons_self _ _, h⟩
      · exact Or.inr ⟨r', List.mem_cons_of_mem _ hr', h⟩
    · intro e he
      exact i2 e (hsub e he)
    · intro r' hr'
      rcases List.mem_cons.mp hr' with h | h
      · subst h
        obtain ⟨v, hv⟩ := hkey
        exact ⟨v, i2 _ hv⟩
      · exact i3 r' h

/-- Looking up a key after a run of upserts: when the list has an entry under the key and all
entries under the key carry the same score, the key maps to that score. -/
theorem upserts_lookup (k : CString) (v : Int) :
    ∀ (scores : List (CString × Int)) (z : CString → Option Int),
      (∀ e ∈ scores, e.1 = k → e.2 = v) →
      ((∃ w, (k, w) ∈ scores) ∨ z k = some v) →
      scores.foldl (fun (y : CString → Option Int) (e : CString × Int) =>
          Function.update y e.1 (some e.2)) z k = some v := by
  intro scores
  induction scores with
  | nil =>
    intro z _ h
    rcases h with ⟨w, hw⟩ | h
    · cases hw
    · simpa using h
  | cons e rest ih =>
    intro z hall h
    simp only [List.foldl_cons]
    apply ih
    · intro e' he'
      exact hall e' (List.mem_cons_of_mem _ he')
    · by_cases hin : ∃ w, (k, w) ∈ rest
      · exact Or.inl hin
      · right
        by_cases hek : e.1 = k
        · rw [← hek, Function.update_same]
          rw [hall e (List.mem_cons_self _ _) hek]
        · rw [Function.update_noteq (fun h' => hek h'.symm)]
          rcases h with ⟨w, hw⟩ | h
          · rcases List.mem_cons.mp hw with h1 | h1
            · exact absurd (by rw [← h1]) hek
            · exact absurd ⟨w, h1⟩ hin
          · exact h

/-- On the reference registry no write throws. -/
theorem flushWrites_refRedis_ok (m : PlasmaCacheManager) (g : Registry) :
    (flushWrites refRedis m g).1 = true := by
  unfold flushWrites
  simp only [refRedis, Bool.not_true, Bool.false_eq_true, if_false]
  split <;> rfl

/-- On the reference registry the flush adds the two counters of the session. -/
theorem flushWrites_refRedis_counters (m : PlasmaCacheManager) (g : Registry) :
    (flushWrites refRedis m g).2.counters hitKey = g.counters hitKey + m.cache_hit_count_ ∧
    (flushWrites refRedis m g).2.counters missKey = g.counters missKey + m.cache_miss_count_ := by
  have hne : missKey ≠ hitKey := by decide
  unfold flushWrites
  simp only [refRedis, Bool.not_true, Bool.false_eq_true, if_false]
  split <;> simp [Function.update_noteq hne.symm, Function.update_noteq hne]

/-- On the reference registry, after the flush a member of the map `scores` whose entries all
carry one score has that score under the file path. -/
theorem flushWrites_refRedis_zsets (m : PlasmaCacheManager) (g : Registry) (k : CString)
    (v : Int) (hin : ∃ w, (k, w) ∈ buildScores m)
    (hall : ∀ e ∈ buildScores m, e.1 = k → e.2 = v) :
    (flushWrites refRedis m g).2.zsets m.file_path_ k = some v := by
  have hpos : (buildScores m).length > 0 := by
    obtain ⟨w, hw⟩ := hin
    exact List.length_pos_of_mem hw
  unfold flushWrites
  simp only [refRedis, Bool.not_true, Bool.false_eq_true, if_false, hpos, if_true,
    Function.update_same]
  exact upserts_lookup k v _ _ hall (Or.inl hin)

/-- The flush within 32 bits. For a connected manager with the registry attached, a host name
of at most 255 characters and a cached-range log whose offsets and lengths lie in the range
of `int`, `close()` on the reference registry adds `cache_hit_count_` and
`cache_miss_count_` to the two counters and leaves, under the file path, every member
`<offset>_<length>_<hostname>` of the log with score `offset`. -/
theorem flush_within_int32 {σ : Type} (cl : PlasmaClient σ) (m : PlasmaCacheManager) (s : σ)
    (g : Registry) (hc : connected m = true) (hr : m.redis_ = true)
    (h32 : ∀ r ∈ m.cached_ranges_, isInt32 r.offset ∧ isInt32 r.length)
    (hh : m.hostname.length ≤ 255) :
    (close cl refRedis m s g).2.2.counters hitKey = g.counters hitKey + m.cache_hit_count_ ∧
    (close cl refRedis m s g).2.2.counters missKey =
      g.counters missKey + m.cache_miss_count_ ∧
    ∀ r ∈ m.cached_ranges_,
      (close cl refRedis m s g).2.2.zsets m.file_path_
        (decimal r.offset ++ ['_'] ++ decimal r.length ++ ['_'] ++ c_str m.hostname) =
      some r.offset := by
  have hc' : m.client_ = true := hc
  have hfit : ∀ r ∈ m.cached_ranges_, (memberOutput m r).length < 1024 :=
    fun r hr' => memberOutput_fits m r (h32 r hr').1 (h32 r hr').2 hh
  have hreg : (close cl refRedis m s g).2.2 = (flushWrites refRedis m g).2 := by
    rw [close_connected cl refRedis m s g hc']
    have hf : flushWrites refRedis { m with object_ids := [], client_ := false } g =
        flushWrites refRedis m g := flushWrites_congr refRedis m _ g rfl rfl rfl rfl rfl
    rw [setCacheInfoToRedis_flushed refRedis { m with object_ids := [], client_ := false } g hr
      (flushWrites_refRedis_ok _ g), hf]
  rw [hreg]
  refine ⟨(flushWrites_refRedis_counters m g).1, (flushWrites_refRedis_counters m g).2, ?_⟩
  intro r hrm
  have hmem : memberOf m r =
      decimal r.offset ++ ['_'] ++ decimal r.length ++ ['_'] ++ c_str m.hostname := by
    unfold memberOf
    rw [snprintf_of_fits _ (hfit r hrm)]
    unfold memberOutput
    rw [fmt_d_of_isInt32 _ (h32 r hrm).1, fmt_d_of_isInt32 _ (h32 r hrm).2]
  rw [← hmem]
  obtain ⟨i1, _, i3⟩ := scores_fold m m.cached_ranges_ []
  apply flushWrites_refRedis_zsets m g
  · exact i3 r hrm
  · intro e he hk
    rcases i1 e he with h | ⟨r', hr', h⟩
    · cases h
    · rw [h] at hk ⊢
      simp only at hk ⊢
      rw [memberOf_offset m r' r (h32 r' hr').1 (h32 r hrm).1 (hfit r' hr') (hfit r hrm) hk]
      exact toDouble_of_isInt32 _ (h32 r hrm).1

/-- Claim C8, the code at the failing input. In the scenario of the specification (one hundred
bytes cached at offset 4096 of `/data/t.parquet` and read back) `close()` raises the hit
counter to 1 and adds the member `4096_100_node1` with score 4096. After caching one hundred
bytes at offset 4294967296, `close()` adds no member `4294967296_100_node1`: it adds the
member `0_100_node1`, with score 4294967296. -/
theorem flush_member_low_bits :
    (afterCacheGet scenarioManager ⟨4096, 100⟩ bytes100).1 = some bytes100 ∧
    (close refStore refRedis (afterCacheGet scenarioManager ⟨4096, 100⟩ bytes100).2.1
        (afterCacheGet scenarioManager ⟨4096, 100⟩ bytes100).2.2 emptyRegistry).2.2.counters
      hitKey = 1 ∧
    (close refStore refRedis (afterCacheGet scenarioManager ⟨4096, 100⟩ bytes100).2.1
        (afterCacheGet scenarioManager ⟨4096, 100⟩ bytes100).2.2 emptyRegistry).2.2.zsets tPath
      "4096_100_node1".data = some 4096 ∧
    isInt64 4294967296 ∧
    (afterCache scenarioManager ⟨4294967296, 100⟩ bytes100).1 = true ∧
    (afterCache scenarioManager ⟨4294967296, 100⟩ bytes100).2.1.cached_ranges_ =
      [⟨4294967296, 100⟩] ∧
    (close refStore refRedis (afterCache scenarioManager ⟨4294967296, 100⟩ bytes100).2.1
        (afterCache scenarioManager ⟨4294967296, 100⟩ bytes100).2.2 emptyRegistry).2.2.zsets
      tPath "4294967296_100_node1".data = none ∧
    (close refStore refRedis (afterCache scenarioManager ⟨4294967296, 100⟩ bytes100).2.1
        (afterCache scenarioManager ⟨4294967296, 100⟩ bytes100).2.2 emptyRegistry).2.2.zsets
      tPath "0_100_node1".data = some 4294967296 := by
  refine ⟨by decide, by decide, by decide, by decide, by decide, by decide, by decide, by decide⟩

end ape
